import Mathlib

/-!
# ConversionScreen: a verification development

A shallow embedding of `src/ConversionScreen.js` (the React Native currency
conversion screen) and of the JavaScript built-ins its handlers call
(`isNaN`, `parseFloat`, binary64 multiplication, `Number.prototype.toFixed`,
property reads and `Object.keys` on parsed JSON, `ToNumber`).

Numbers are IEEE 754 binary64 values carried exactly: a finite value is a
sign together with a dyadic rational `m * 2 ^ e`; every rounding step is
round-to-nearest, ties-to-even, computed with natural-number arithmetic.
-/

namespace ConversionScreen

/-! ## JavaScript numbers -/

/-- A JavaScript Number: NaN, plus or minus Infinity, or a finite value
`(-1)^neg * m * 2^e`. -/
inductive JSNum where
  | nan : JSNum
  | inf (neg : Bool) : JSNum
  | fin (neg : Bool) (m : Nat) (e : Int) : JSNum
  deriving Repr

/-- Structural equality test on numbers (same constructor, same fields). -/
def JSNum.same : JSNum → JSNum → Bool
  | .nan, .nan => true
  | .inf s, .inf t => s == t
  | .fin s m e, .fin t k f => s == t && m == k && e == f
  | _, _ => false

instance : DecidableEq JSNum := fun a b =>
  decidable_of_iff (a.same b = true)
    (by cases a <;> cases b <;> simp [JSNum.same, and_assoc])

/-- Numerator of the magnitude `m * 2^e` written as a fraction. -/
def finNum (m : Nat) (e : Int) : Nat := m * 2 ^ e.toNat

/-- Denominator of the magnitude `m * 2^e` written as a fraction. -/
def finDen (e : Int) : Nat := 2 ^ (-e).toNat

/-- Binary logarithm by repeated halving; `fuel` bounds the number of halvings. -/
def log2Aux : Nat → Nat → Nat
  | 0, _ => 0
  | fuel + 1, n => if n < 2 then 0 else log2Aux fuel (n / 2) + 1

/-- The floor of the binary logarithm of `n` (and `0` at `n = 0`). -/
def log2 (n : Nat) : Nat := log2Aux n n

/-- The integer `fl` with `2^fl ≤ num/den < 2^(fl+1)`, for `num, den > 0`. -/
def floorLog2 (num den : Nat) : Int :=
  let l : Int := (log2 num : Int) - (log2 den : Int)
  if den * 2 ^ l.toNat ≤ num * 2 ^ (-l).toNat then l else l - 1

/-- The integer nearest to `n/d`; of two equally near, the even one. -/
def roundHalfEven (n d : Nat) : Nat :=
  let q := n / d
  let r := n % d
  if 2 * r < d then q else if d < 2 * r then q + 1 else if q % 2 = 0 then q else q + 1

/-- The binary exponent at which `num/den` is rounded: the unit in the last
place of a 53-bit significand, and never below the subnormal exponent. -/
def roundingExponent (num den : Nat) : Int :=
  max (floorLog2 num den - 52) (-1074)

/-- Round the non-negative rational `num/den` to the nearest binary64 value,
ties to even; magnitudes that round to `2^1024` or more overflow to Infinity.
The result carries the sign `neg`. -/
def roundRat (neg : Bool) (num den : Nat) : JSNum :=
  if num = 0 then .fin neg 0 0
  else
    let e := roundingExponent num den
    let m := roundHalfEven (num * finDen e) (den * 2 ^ e.toNat)
    if 2 ^ 1024 ≤ finNum m e then .inf neg else .fin neg m e

/-- Is the value NaN (the abstract operation behind the global `isNaN`,
after its argument has been coerced with `ToNumber`). -/
def JSNum.isNaN : JSNum → Bool
  | .nan => true
  | _ => false

/-- Is the value finite. -/
def JSNum.isFinite : JSNum → Bool
  | .fin _ _ _ => true
  | _ => false

/-- Is the value zero (of either sign). -/
def JSNum.isZero : JSNum → Bool
  | .fin _ m _ => m == 0
  | _ => false

/-- Is the value greater than zero. -/
def JSNum.isPositive : JSNum → Bool
  | .fin neg m _ => !neg && m != 0
  | .inf neg => !neg
  | .nan => false

/-- Binary64 multiplication `x * y` (`Number::multiply`). -/
def JSNum.mul : JSNum → JSNum → JSNum
  | .nan, _ => .nan
  | _, .nan => .nan
  | .inf s, .inf t => .inf (s != t)
  | .inf s, .fin t m _ => if m = 0 then .nan else .inf (s != t)
  | .fin s m _, .inf t => if m = 0 then .nan else .inf (s != t)
  | .fin s m e, .fin t k f =>
      roundRat (s != t) (finNum (m * k) (e + f)) (finDen (e + f))

/-- The Number value of the decimal `digits * 10^exp10` with sign `neg`
(the rounding step of `StringNumericValue`). -/
def ofDecimal (neg : Bool) (digits : Nat) (exp10 : Int) : JSNum :=
  roundRat neg (digits * 10 ^ exp10.toNat) (10 ^ (-exp10).toNat)

/-- Do two finite magnitudes `m * 2^e` and `k * 2^f` denote the same real number. -/
def sameMagnitude (m : Nat) (e : Int) (k : Nat) (f : Int) : Bool :=
  finNum m e * finDen f == finNum k f * finDen e

/-! ## Decimal digits -/

/-- The character for the decimal digit `d`. -/
def digitChar (d : Nat) : Char := Char.ofNat (48 + d % 10)

/-- Decimal digits of `n`, most significant first, accumulated in front of `acc`. -/
def natDigitsAux : Nat → Nat → List Char → List Char
  | 0, _, acc => acc
  | fuel + 1, n, acc =>
      if n < 10 then digitChar n :: acc
      else natDigitsAux fuel (n / 10) (digitChar (n % 10) :: acc)

/-- The decimal representation of `n` without leading zeros (`"0"` for zero). -/
def natDigits (n : Nat) : List Char := natDigitsAux (n + 1) n []

/-! ## String to number -/

/-- The `StrWhiteSpaceChar` production: WhiteSpace and LineTerminator code points. -/
def isStrWhiteSpaceChar (c : Char) : Bool :=
  let n := c.toNat
  n == 0x09 || n == 0x0A || n == 0x0B || n == 0x0C || n == 0x0D || n == 0x20 || n == 0xA0 ||
  n == 0x1680 || (0x2000 ≤ n && n ≤ 0x200A) || n == 0x2028 || n == 0x2029 || n == 0x202F ||
  n == 0x205F || n == 0x3000 || n == 0xFEFF

/-- The `DecimalDigit` production. -/
def isDecimalDigit (c : Char) : Bool := 48 ≤ c.toNat && c.toNat ≤ 57

/-- Value of a digit character in bases up to 16, if it is one. -/
def hexDigitValue (c : Char) : Option Nat :=
  let n := c.toNat
  if 48 ≤ n && n ≤ 57 then some (n - 48)
  else if 97 ≤ n && n ≤ 102 then some (n - 87)
  else if 65 ≤ n && n ≤ 70 then some (n - 55)
  else none

/-- The mathematical value of a run of decimal digits. -/
def digitsValue (ds : List Char) : Nat :=
  ds.foldl (fun acc c => acc * 10 + (c.toNat - 48)) 0

/-- The mathematical value of a run of digits in `base`, or `none` when a
character is not a digit of that base. -/
def digitsValueBase (base : Nat) (ds : List Char) : Option Nat :=
  ds.foldl (fun acc c =>
    match acc, hexDigitValue c with
    | some a, some d => if d < base then some (a * base + d) else none
    | _, _ => none) (some 0)

/-- An unsigned decimal literal: `Infinity`, or `mantissa * 10^exp10`. -/
inductive StrDecimal where
  | infinity : StrDecimal
  | decimal (mantissa : Nat) (exp10 : Int) : StrDecimal

/-- If `cs` starts with `pre`, what follows it. -/
def dropLeading : List Char → List Char → Option (List Char)
  | [], cs => some cs
  | _ :: _, [] => none
  | p :: ps, c :: cs => if p = c then dropLeading ps cs else none

/-- An optional leading `+` or `-`: whether the sign is minus, and what
follows the sign. -/
def stripSign (cs : List Char) : Bool × List Char :=
  match cs with
  | [] => (false, [])
  | c :: r => if c = '+' then (false, r) else if c = '-' then (true, r) else (false, cs)

/-- An optional `ExponentPart` at the head of `cs`: the exponent it denotes
(`0` when there is none) and the unread remainder. An `e` that is not followed
by an optionally signed digit run is left unread. -/
def parseExponent (cs : List Char) : Int × List Char :=
  match cs with
  | [] => (0, [])
  | c :: rest =>
      if c = 'e' ∨ c = 'E' then
        if ((stripSign rest).2.takeWhile isDecimalDigit).isEmpty then (0, cs)
        else
          ((if (stripSign rest).1 then -(digitsValue ((stripSign rest).2.takeWhile isDecimalDigit) : Int)
            else (digitsValue ((stripSign rest).2.takeWhile isDecimalDigit) : Int)),
            (stripSign rest).2.dropWhile isDecimalDigit)
      else (0, cs)

/-- The literal forms `DecimalDigits . DecimalDigits? ExponentPart?` and
`. DecimalDigits ExponentPart?`: the integer digits `ip` have been read and a
point seen; `r2` is what follows the point. -/
def parseAfterPoint (ip r2 : List Char) : Option (StrDecimal × List Char) :=
  if ip.isEmpty ∧ (r2.takeWhile isDecimalDigit).isEmpty then none
  else
    some (.decimal (digitsValue (ip ++ r2.takeWhile isDecimalDigit))
        ((parseExponent (r2.dropWhile isDecimalDigit)).1 - (r2.takeWhile isDecimalDigit).length),
      (parseExponent (r2.dropWhile isDecimalDigit)).2)

/-- The literal form `DecimalDigits ExponentPart?`: the integer digits `ip`
have been read and no point follows; `r1` is what follows the digits. -/
def parseNoPoint (ip r1 : List Char) : Option (StrDecimal × List Char) :=
  if ip.isEmpty then none
  else some (.decimal (digitsValue ip) (parseExponent r1).1, (parseExponent r1).2)

/-- The longest prefix of `cs` that is a `StrUnsignedDecimalLiteral`, with the
unread remainder; `none` when no prefix is one. -/
def parseStrUnsignedDecimalLiteral (cs : List Char) : Option (StrDecimal × List Char) :=
  match dropLeading "Infinity".toList cs with
  | some rest => some (.infinity, rest)
  | none =>
      match cs.dropWhile isDecimalDigit with
      | [] => parseNoPoint (cs.takeWhile isDecimalDigit) []
      | c :: r2 =>
          if c = '.' then parseAfterPoint (cs.takeWhile isDecimalDigit) r2
          else parseNoPoint (cs.takeWhile isDecimalDigit) (c :: r2)

/-- The Number an unsigned literal denotes under the sign `neg`. -/
def StrDecimal.value (neg : Bool) : StrDecimal → JSNum
  | .infinity => .inf neg
  | .decimal m ex => ofDecimal neg m ex

/-- The longest prefix of `cs` that is a `StrDecimalLiteral` (optional sign,
then an unsigned literal), as a Number, with the unread remainder. -/
def parseStrDecimalLiteral (cs : List Char) : Option (JSNum × List Char) :=
  match parseStrUnsignedDecimalLiteral (stripSign cs).2 with
  | none => none
  | some (d, rest) => some (d.value (stripSign cs).1, rest)

/-- A `NonDecimalIntegerLiteral` (`0x`, `0o`, `0b` forms) spanning all of `cs`. -/
def parseNonDecimalIntegerLiteral (cs : List Char) : Option Nat :=
  match cs with
  | '0' :: c :: ds =>
      let base : Nat :=
        if c = 'x' ∨ c = 'X' then 16
        else if c = 'o' ∨ c = 'O' then 8
        else if c = 'b' ∨ c = 'B' then 2
        else 0
      if base = 0 ∨ ds.isEmpty then none else digitsValueBase base ds
  | _ => none

/-- Strip `StrWhiteSpaceChar`s from both ends. -/
def trimWhiteSpace (cs : List Char) : List Char :=
  ((cs.dropWhile isStrWhiteSpaceChar).reverse.dropWhile isStrWhiteSpaceChar).reverse

/-- The global `parseFloat` applied to a string: leading white space is
skipped, the longest `StrDecimalLiteral` prefix is converted, and anything
after it is ignored; `NaN` when there is no such prefix. -/
def parseFloat (s : String) : JSNum :=
  match parseStrDecimalLiteral (s.toList.dropWhile isStrWhiteSpaceChar) with
  | none => .nan
  | some (v, _) => v

/-- The abstract operation `StringToNumber` (what `ToNumber` does to a
string): the whole string, white space trimmed, must be a numeric literal;
the empty or blank string is `+0`; anything else is `NaN`. -/
def stringToNumber (s : String) : JSNum :=
  let t := trimWhiteSpace s.toList
  if t.isEmpty then .fin false 0 0
  else
    match parseNonDecimalIntegerLiteral t with
    | some v => roundRat false v 1
    | none =>
        match parseStrDecimalLiteral t with
        | some (v, []) => v
        | _ => .nan

/-- The global `isNaN` applied to a string: `ToNumber` it, then test for NaN. -/
def isNaN (s : String) : Bool := (stringToNumber s).isNaN

/-! ## Number to string -/

/-- For a magnitude `num/den` with `n` integer digits and a digit count `k`,
the `k`-digit decimal significand `s` and decimal exponent `n'` (meaning
`s * 10^(n' - k)`) that reads back as the binary64 value `m * 2^e`, if one of
the two neighbouring `k`-digit decimals does; the nearer one when both do. -/
def shortestAt (m : Nat) (e : Int) (n k : Nat) : Option (Nat × Nat) :=
  let num := finNum m e
  let den := finDen e
  let scale := 10 ^ (n - k)
  let lo := num / (den * scale)
  let hi := lo + 1
  let back (s : Nat) : Bool :=
    match roundRat false (s * scale) 1 with
    | .fin _ m2 e2 => sameMagnitude m e m2 e2
    | _ => false
  let norm (s : Nat) : Nat × Nat := if s = 10 ^ k then (10 ^ (k - 1), n + 1) else (s, n)
  let dLo := num - lo * scale * den
  let dHi := hi * scale * den - num
  match back lo && decide (10 ^ (k - 1) ≤ lo), back hi with
  | true, true =>
      if dLo < dHi then some (lo, n)
      else if dHi < dLo then some (norm hi)
      else if lo % 2 = 0 then some (lo, n) else some (norm hi)
  | true, false => some (lo, n)
  | false, true => some (norm hi)
  | false, false => none

/-- `Number::toString` for a finite magnitude of at least `10^21`: the
shortest significand that reads back as the same value, in exponential form
`d.ddde+x`. -/
def toStringLarge (m : Nat) (e : Int) : List Char :=
  let whole := finNum m e / finDen e
  let n := (natDigits whole).length
  let found : Nat × Nat :=
    match (List.range n).findSome? (fun i => shortestAt m e n (i + 1)) with
    | some r => r
    | none => (whole, n)
  match natDigits found.1 with
  | [] => []
  | [d] => d :: ('e' :: '+' :: natDigits (found.2 - 1))
  | d :: ds => d :: '.' :: (ds ++ ('e' :: '+' :: natDigits (found.2 - 1)))

/-- The integer nearest to `num/den * 10^f`; of two equally near, the larger. -/
def nearestScaled (num den f : Nat) : Nat :=
  (2 * 10 ^ f * num + den) / (2 * den)

/-- The method `Number.prototype.toFixed(f)` for `0 ≤ f ≤ 100`. -/
def JSNum.toFixed (x : JSNum) (f : Nat) : List Char :=
  match x with
  | .nan => "NaN".toList
  | .inf neg => if neg then "-Infinity".toList else "Infinity".toList
  | .fin neg m e =>
      let s : List Char := if neg ∧ m ≠ 0 then ['-'] else []
      if 10 ^ 21 * finDen e ≤ finNum m e then s ++ toStringLarge m e
      else
        let n := nearestScaled (finNum m e) (finDen e) f
        let digits : List Char := if n = 0 then ['0'] else natDigits n
        let padded : List Char :=
          if f ≠ 0 ∧ digits.length ≤ f then List.replicate (f + 1 - digits.length) '0' ++ digits
          else digits
        if f = 0 then s ++ padded
        else s ++ (padded.take (padded.length - f) ++ ('.' :: padded.drop (padded.length - f)))

/-! ## JSON values and the operations the handlers apply to them -/

/-- A JSON value as `response.data` holds it. An object lists its own
properties in property order, each key once. -/
inductive JsonValue where
  | null : JsonValue
  | bool (b : Bool) : JsonValue
  | num (x : JSNum) : JsonValue
  | str (s : String) : JsonValue
  | arr (items : List JsonValue) : JsonValue
  | obj (members : List (String × JsonValue)) : JsonValue

/-- The own property `key` of an object, or `undefined`. -/
def getMember (members : List (String × JsonValue)) (key : String) : Option JsonValue :=
  (members.find? (fun p => p.1 == key)).map Prod.snd

/-- The array index a property key denotes: a decimal numeral without
leading zeros. -/
def arrayIndex (key : String) : Option Nat :=
  if key.toList = natDigits (digitsValue key.toList) then some (digitsValue key.toList)
  else none

/-- The UTF-16 code units of a string, one entry each. A character outside
the basic plane takes two units; each half is stood for by the character
itself, which like a lone half is not white space, a digit or part of a
numeral. -/
def utf16Units (s : String) : List Char :=
  s.toList.flatMap (fun c => if 0x10000 ≤ c.toNat then [c, c] else [c])

/-- The Number `n` as a JSON value. -/
def natValue (n : Nat) : JsonValue := .num (roundRat false n 1)

/-- Property read `base[key]`. The outer `none` is the TypeError thrown when
`base` is `undefined` or `null`; the inner `none` is the value `undefined`.
Inherited members (methods of the prototypes) are functions or objects, which
`ToNumber` turns into NaN as it does `undefined`, and are read as `undefined`. -/
def getProperty (base : Option JsonValue) (key : String) : Option (Option JsonValue) :=
  match base with
  | none => none
  | some .null => none
  | some (.obj members) => some (getMember members key)
  | some (.arr items) =>
      if key = "length" then some (some (natValue items.length))
      else some ((arrayIndex key).bind (fun i => items.get? i))
  | some (.str s) =>
      if key = "length" then some (some (natValue (utf16Units s).length))
      else some ((arrayIndex key).bind
        (fun i => ((utf16Units s).get? i).map (fun c => JsonValue.str (String.mk [c]))))
  | some (.num _) => some none
  | some (.bool _) => some none

/-- `Object.keys(value)`: the own enumerable string keys; `none` is the
TypeError thrown on `undefined` and `null`. -/
def objectKeys (value : Option JsonValue) : Option (List String) :=
  match value with
  | none => none
  | some .null => none
  | some (.obj members) => some (members.map Prod.fst)
  | some (.arr items) => some ((List.range items.length).map (fun i => String.mk (natDigits i)))
  | some (.str s) =>
      some ((List.range (utf16Units s).length).map (fun i => String.mk (natDigits i)))
  | some (.num _) => some []
  | some (.bool _) => some []

mutual
/-- `StringToNumber` of the string an array element contributes to its
array's `toString`: nothing for `null`; for a number its own text, which
reads back as the same number (as `+0` for either zero). -/
def elementToNumber : JsonValue → JSNum
  | .null => .fin false 0 0
  | .bool _ => .nan
  | .num x => if x.isZero then .fin false 0 0 else x
  | .str s => stringToNumber s
  | .arr items => arrayToNumber items
  | .obj _ => .nan
/-- `ToNumber` of an array: `StringToNumber` of its elements joined by
commas, which is a numeral only when there is at most one element. -/
def arrayToNumber : List JsonValue → JSNum
  | [] => .fin false 0 0
  | [v] => elementToNumber v
  | _ :: _ :: _ => .nan
end

/-- `ToNumber` of a value or `undefined`, as the multiplication applies it to
its right operand. -/
def toNumber : Option JsonValue → JSNum
  | none => .nan
  | some .null => .fin false 0 0
  | some (.bool b) => if b then roundRat false 1 1 else .fin false 0 0
  | some (.num x) => x
  | some (.str s) => stringToNumber s
  | some (.arr items) => arrayToNumber items
  | some (.obj _) => .nan

/-! ## The screen: state, effects and handlers -/

/-- The component state held by the six `useState` hooks. `fromCurrency` and
`toCurrency` hold a string or `undefined` (`none`). -/
structure ScreenState where
  amount : String
  fromCurrency : Option String
  toCurrency : Option String
  convertedAmount : String
  currencies : List String
  loading : Bool

/-- The state of the first render: every `useState` initial value. -/
def initialState : ScreenState :=
  { amount := "", fromCurrency := some "", toCurrency := some "", convertedAmount := "",
    currencies := [], loading := false }

/-- The screen together with what it can touch outside itself: the key-value
store, the alerts shown, the HTTP requests issued and the console log. -/
structure World where
  screen : ScreenState
  store : String → Option String
  alerts : List (String × String)
  requests : List String
  console : List String

/-- A first render over the given store. -/
def freshWorld (store : String → Option String) : World :=
  { screen := initialState, store := store, alerts := [], requests := [], console := [] }

/-- A loaded screen over an empty store: USD to EUR with the given amount typed. -/
def exampleWorld (amount : String) : World :=
  { screen :=
      { amount := amount, fromCurrency := some "USD", toCurrency := some "EUR",
        convertedAmount := "", currencies := ["USD", "EUR", "JPY"], loading := false },
    store := fun _ => none, alerts := [], requests := [], console := [] }

/-- One observable step of a handler, in source order. -/
inductive Effect where
  | setAmount (v : String)
  | setFromCurrency (v : Option String)
  | setToCurrency (v : Option String)
  | setConvertedAmount (v : String)
  | setCurrencies (v : List String)
  | setLoading (v : Bool)
  | httpGet (url : String)
  | alert (title message : String)
  | consoleError (message : String)
  | storageSetItem (key value : String)

/-- Is the effect an HTTP request. -/
def Effect.isHttpGet : Effect → Bool
  | .httpGet _ => true
  | _ => false

/-- Does the effect display a result or write to the store. -/
def Effect.writesResult : Effect → Bool
  | .setConvertedAmount _ => true
  | .storageSetItem _ _ => true
  | _ => false

/-- Does the effect change the currency list or the from/to selection. -/
def Effect.touchesSelection : Effect → Bool
  | .setFromCurrency _ => true
  | .setToCurrency _ => true
  | .setCurrencies _ => true
  | _ => false

/-- Is the effect a user-visible alert. -/
def Effect.isAlert : Effect → Bool
  | .alert _ _ => true
  | _ => false

/-- Apply one effect. -/
def World.apply (w : World) : Effect → World
  | .setAmount v => { w with screen := { w.screen with amount := v } }
  | .setFromCurrency v => { w with screen := { w.screen with fromCurrency := v } }
  | .setToCurrency v => { w with screen := { w.screen with toCurrency := v } }
  | .setConvertedAmount v => { w with screen := { w.screen with convertedAmount := v } }
  | .setCurrencies v => { w with screen := { w.screen with currencies := v } }
  | .setLoading v => { w with screen := { w.screen with loading := v } }
  | .httpGet url => { w with requests := w.requests ++ [url] }
  | .alert t m => { w with alerts := w.alerts ++ [(t, m)] }
  | .consoleError m => { w with console := w.console ++ [m] }
  | .storageSetItem k v => { w with store := fun k2 => if k2 = k then some v else w.store k2 }

/-- Apply the effects of a handler in order. -/
def World.run (w : World) (effects : List Effect) : World :=
  effects.foldl World.apply w

/-- How `await axios.get(url)` turns out: the request rejects (no response,
or a status outside 2xx), or it resolves with `response.data`, the parsed
body (the body text itself, as a string, when it is not JSON). -/
inductive FetchResult where
  | networkError : FetchResult
  | badStatus (code : Nat) : FetchResult
  | response (data : JsonValue) : FetchResult

/-- The value of `response.data` when the request resolves; `none` when the
`await` throws. -/
def FetchResult.data : FetchResult → Option JsonValue
  | .response data => some data
  | _ => none

/-- The key under which the last result is stored. -/
def storageKey : String := "lastConversionAmount"

/-- Conversion of a string-or-undefined to a string, as in a template literal
or a property key. -/
def toStr : Option String → String
  | some s => s
  | none => "undefined"

/-- `saveLastConversionAmount(result)`: `setItem` under the fixed key; a
failing write is logged and swallowed. -/
def saveLastConversionAmount (result : String) (writeOk : Bool) : List Effect :=
  if writeOk then [.storageSetItem storageKey result]
  else [.consoleError "Error saving last conversion amount: "]

/-- The `try` block of `fetchCurrencies` after the request: `response.data.rates`
and `Object.keys(rates)`; `none` when one of the steps throws. -/
def currencyListOf (resp : FetchResult) : Option (List String) :=
  match resp.data with
  | none => none
  | some data =>
      match getProperty (some data) "rates" with
      | none => none
      | some rates => objectKeys rates

/-- `fetchCurrencies()`, given how the request for the USD table turns out. -/
def fetchCurrencies (resp : FetchResult) : List Effect :=
  [.setLoading true, .httpGet "https://api.exchangerate-api.com/v4/latest/USD"] ++
  (match currencyListOf resp with
    | some currencyList =>
        [.setCurrencies currencyList,
         .setFromCurrency (some "USD"),
         .setToCurrency (currencyList.find? (fun currency => currency != "USD"))]
    | none =>
        [.consoleError "Error fetching currencies: ",
         .alert "Error" "Failed to fetch currencies. Please try again later."]) ++
  [.setLoading false]

/-- The guard `!amount || isNaN(amount)` of `convertCurrency`. -/
def invalidAmount (amount : String) : Bool :=
  amount == "" || isNaN amount

/-- The reads `response.data.rates` and `rates[toCurrency]` of
`convertCurrency`: the value found (or `undefined`), or `none` when one of
the steps throws. -/
def rateOf (resp : FetchResult) (toCurrency : Option String) : Option (Option JsonValue) :=
  match resp.data with
  | none => none
  | some data =>
      match getProperty (some data) "rates" with
      | none => none
      | some rates => getProperty rates (toStr toCurrency)

/-- The string `(parseFloat(amount) * rate).toFixed(2)`. -/
def conversionResult (amount : String) (rate : Option JsonValue) : String :=
  String.mk ((JSNum.mul (parseFloat amount) (toNumber rate)).toFixed 2)

/-- `convertCurrency()` run from a render with state `s`, given how the rate
request and the store write turn out. The early `return` on an invalid amount
leaves the function before the final `setLoading(false)`. -/
def convertCurrency (s : ScreenState) (resp : FetchResult) (writeOk : Bool) : List Effect :=
  .setLoading true ::
  (if invalidAmount s.amount then
    [.alert "Invalid Amount" "Please enter a valid numeric amount."]
  else
    .httpGet ("https://api.exchangerate-api.com/v4/latest/" ++ toStr s.fromCurrency) ::
    ((match rateOf resp s.toCurrency with
      | some rate =>
          .setConvertedAmount (conversionResult s.amount rate) ::
            saveLastConversionAmount (conversionResult s.amount rate) writeOk
      | none =>
          [.consoleError "Error converting currency: ",
           .alert "Error" "Failed to convert currency. Please try again later."]) ++
     [.setLoading false]))

/-- How `AsyncStorage.getItem` turns out: it throws, or yields the stored
string or `null`. -/
inductive ReadResult where
  | failed : ReadResult
  | value (v : Option String) : ReadResult

/-- `AsyncStorage.getItem(key)` against the store of `w`. -/
def World.getItem (w : World) (key : String) (readOk : Bool) : ReadResult :=
  if readOk then .value (w.store key) else .failed

/-- `retrieveLastConversionAmount()`, given what the read yields: a truthy
(non-empty) string is displayed. -/
def retrieveLastConversionAmount (r : ReadResult) : List Effect :=
  match r with
  | .value (some lastConversion) =>
      if lastConversion ≠ "" then [.setConvertedAmount lastConversion] else []
  | .value none => []
  | .failed => [.consoleError "Error retrieving last conversion amount: "]

/-- `clearFields()`. -/
def clearFields : List Effect :=
  [.setAmount "", .setConvertedAmount ""]

/-- `swapCurrencies()` run from a render with state `s`. -/
def swapCurrencies (s : ScreenState) : List Effect :=
  [.setFromCurrency s.toCurrency, .setToCurrency s.fromCurrency]

/-- What can happen to the screen: the mount effect (currency-list load and
restore), typing, the two pickers, and the three buttons. Each event carries
how the outside world answers. -/
inductive Event where
  | mount (resp : FetchResult) (readOk : Bool)
  | changeAmount (text : String)
  | pickFrom (itemValue : String)
  | pickTo (itemValue : String)
  | pressConvert (resp : FetchResult) (writeOk : Bool)
  | pressSwap
  | pressClear

/-- One event against the current render. A picker only offers the loaded
currencies; Convert and Clear are disabled while `loading` is set. -/
def World.step (w : World) : Event → World
  | .mount resp readOk =>
      let w1 := w.run (fetchCurrencies resp)
      w1.run (retrieveLastConversionAmount (w1.getItem storageKey readOk))
  | .changeAmount text => w.run [.setAmount text]
  | .pickFrom c => if c ∈ w.screen.currencies then w.run [.setFromCurrency (some c)] else w
  | .pickTo c => if c ∈ w.screen.currencies then w.run [.setToCurrency (some c)] else w
  | .pressConvert resp writeOk =>
      if w.screen.loading then w else w.run (convertCurrency w.screen resp writeOk)
  | .pressSwap => w.run (swapCurrencies w.screen)
  | .pressClear => if w.screen.loading then w else w.run clearFields

/-- Run a sequence of events from `w`. -/
def World.runEvents (w : World) (events : List Event) : World :=
  events.foldl World.step w

/-- Is `code` (a string or `undefined`) one of the loaded currencies. -/
def isListed (s : ScreenState) (code : Option String) : Bool :=
  match code with
  | some c => decide (c ∈ s.currencies)
  | none => false

/-! ## Notions the claims are stated with -/

/-- A string of the form `[-]d...d.dd`: at least one integer digit, a point,
and exactly two fractional digits. -/
def isTwoDecimalString (cs : List Char) : Bool :=
  let body : List Char :=
    match cs with
    | '-' :: r => r
    | _ => cs
  match body.reverse with
  | d0 :: d1 :: '.' :: ip =>
      isDecimalDigit d0 && isDecimalDigit d1 && !ip.isEmpty && ip.all isDecimalDigit
  | _ => false

/-- The rendering the specification asks of a conversion, for a finite
product of sign `neg` and magnitude `m * 2^e`: the product rounded to the
nearest hundredth, ties away from zero, written with its sign, its integer
digits, a point and two fractional digits. Rounding away from zero is
rounding the magnitude to `n` hundredths, the larger `n` of two equally near;
the minus sign is written when the product is below zero. -/
def roundedTwoDecimals (neg : Bool) (m : Nat) (e : Int) : String :=
  String.mk ((if neg ∧ m ≠ 0 then ['-'] else []) ++
    (natDigits (nearestScaled (finNum m e) (finDen e) 2 / 100) ++
      ['.', digitChar (nearestScaled (finNum m e) (finDen e) 2 / 10 % 10),
        digitChar (nearestScaled (finNum m e) (finDen e) 2 % 10)]))

/-- Is the amount blank: nothing but white space (or nothing at all). -/
def isBlank (amount : String) : Bool := (trimWhiteSpace amount.toList).isEmpty

/-- Is the amount, white space trimmed, a `0x`, `0o` or `0b` integer literal. -/
def isNonDecimalLiteral (amount : String) : Bool :=
  (parseNonDecimalIntegerLiteral (trimWhiteSpace amount.toList)).isSome

/-- A response from which the handler reads no rates value: the `try` block
throws on it. Spelled out by the shape of the body: the request rejected, or
the body is `null`, or it is not an object (then `.rates` is `undefined`), or
it is an object without a `rates` member or with `rates: null`. -/
def FetchResult.unreadable : FetchResult → Bool
  | .networkError => true
  | .badStatus _ => true
  | .response .null => true
  | .response (.obj members) =>
      match getMember members "rates" with
      | none => true
      | some .null => true
      | some _ => false
  | .response _ => true

/-- Does a fetched code list contain USD and at least one other code. -/
def listsUSDAndAnother (codes : List String) : Bool :=
  decide ("USD" ∈ codes) && codes.any (fun c => c != "USD")

/-- Does the event, when it is a successful currency-list load, bring a list
with USD and at least one other code. -/
def Event.goodLoad : Event → Bool
  | .mount resp _ =>
      match currencyListOf resp with
      | some codes => listsUSDAndAnother codes
      | none => true
  | _ => true

/-- Once a currency list is loaded, both selections are on it. -/
def SelectionListed (w : World) : Prop :=
  w.screen.currencies ≠ [] →
    isListed w.screen w.screen.fromCurrency = true ∧
      isListed w.screen w.screen.toCurrency = true

/-- The body of a successful rate response: an object with base and rates. -/
def ratesBody (base : String) (entries : List (String × JsonValue)) : List (String × JsonValue) :=
  [("base", .str base), ("rates", .obj entries)]

/-- Nothing, or white space first: to the numeral parsers, the same as the
end of the input. -/
def startsInert (w : List Char) : Prop :=
  ∀ c, w.head? = some c → isStrWhiteSpaceChar c = true

/-! ## The number model: rounding is to nearest, within the binary64 range -/

theorem log2Aux_spec : ∀ fuel n : Nat, 0 < n → n ≤ fuel →
    2 ^ log2Aux fuel n ≤ n ∧ n < 2 ^ (log2Aux fuel n + 1) := by
  intro fuel
  induction fuel with
  | zero => intro n h0 h; omega
  | succ k ih =>
      intro n h0 h
      by_cases h2 : n < 2
      · have h1 : n = 1 := by omega
        subst h1
        simp [log2Aux]
      · have hpos : 0 < n / 2 := Nat.div_pos (by omega) (by decide)
        have hle : n / 2 ≤ k := by omega
        obtain ⟨ihl, ihu⟩ := ih (n / 2) hpos hle
        simp only [log2Aux, h2, if_false]
        rw [pow_succ, pow_succ]
        rw [pow_succ] at ihu
        constructor <;> omega

/-- The fuel of `log2` is always enough: it returns the floor of the binary
logarithm. -/
theorem log2_spec (n : Nat) (h : 0 < n) : 2 ^ log2 n ≤ n ∧ n < 2 ^ (log2 n + 1) :=
  log2Aux_spec n n h (Nat.le_refl n)

/-- The rounded quotient is within half a unit of `n/d`, on either side. -/
theorem roundHalfEven_nearest (n d : Nat) (hd : 0 < d) :
    2 * (n - roundHalfEven n d * d) ≤ d ∧ 2 * (roundHalfEven n d * d - n) ≤ d := by
  have hdm : d * (n / d) + n % d = n := Nat.div_add_mod n d
  have hr : n % d < d := Nat.mod_lt n hd
  have hq : n / d * d = d * (n / d) := Nat.mul_comm _ _
  have hq1 : (n / d + 1) * d = d * (n / d) + d := by rw [Nat.add_mul, Nat.one_mul, hq]
  unfold roundHalfEven
  simp only
  split
  · rw [hq]; constructor <;> omega
  · split
    · rw [hq1]; constructor <;> omega
    · split
      · rw [hq]; constructor <;> omega
      · rw [hq1]; constructor <;> omega

theorem two_zpow_eq (k : Int) :
    (2 : ℚ) ^ k = ((2 ^ k.toNat : Nat) : ℚ) / ((2 ^ (-k).toNat : Nat) : ℚ) := by
  rcases Int.le_total 0 k with h | h
  · obtain ⟨n, rfl⟩ := Int.eq_ofNat_of_zero_le h
    have h0 : (-(n : Int)).toNat = 0 := by omega
    simp [h0]
  · obtain ⟨n, hn⟩ := Int.eq_ofNat_of_zero_le (Int.neg_nonneg_of_nonpos h)
    have hk : k = -(n : Int) := by omega
    subst hk
    have h0 : (-(n : Int)).toNat = 0 := by omega
    simp [h0]

/-- Comparison of `num/den` with a power of two, in natural numbers. -/
theorem lt_two_zpow_iff (num den : Nat) (hd : 0 < den) (k : Int) :
    num * 2 ^ (-k).toNat < den * 2 ^ k.toNat ↔ (num : ℚ) / den < (2 : ℚ) ^ k := by
  rw [two_zpow_eq, div_lt_div_iff₀ (by exact_mod_cast hd) (by positivity)]
  constructor
  · intro h; exact_mod_cast (by linarith [h] : num * 2 ^ (-k).toNat < 2 ^ k.toNat * den)
  · intro h
    have h2 : num * 2 ^ (-k).toNat < 2 ^ k.toNat * den := by exact_mod_cast h
    linarith

theorem two_zpow_le_iff (num den : Nat) (hd : 0 < den) (k : Int) :
    den * 2 ^ k.toNat ≤ num * 2 ^ (-k).toNat ↔ (2 : ℚ) ^ k ≤ (num : ℚ) / den := by
  rw [← not_lt, ← not_lt, lt_two_zpow_iff num den hd k]

theorem floorLog2_spec (num den : Nat) (hn : 0 < num) (hd : 0 < den) :
    (2 : ℚ) ^ floorLog2 num den ≤ (num : ℚ) / den ∧
      (num : ℚ) / den < (2 : ℚ) ^ (floorLog2 num den + 1) := by
  obtain ⟨hnl, hnu⟩ := log2_spec num hn
  obtain ⟨hdl, hdu⟩ := log2_spec den hd
  have hdQ : (0 : ℚ) < den := by exact_mod_cast hd
  have hnlQ : (2 : ℚ) ^ (log2 num : Int) ≤ num := by
    rw [zpow_natCast]; exact_mod_cast hnl
  have hnuQ : (num : ℚ) < (2 : ℚ) ^ ((log2 num : Int) + 1) := by
    rw [show ((log2 num : Int) + 1) = ((log2 num + 1 : Nat) : Int) by push_cast; rfl,
      zpow_natCast]
    exact_mod_cast hnu
  have hdlQ : (2 : ℚ) ^ (log2 den : Int) ≤ den := by
    rw [zpow_natCast]; exact_mod_cast hdl
  have hduQ : (den : ℚ) < (2 : ℚ) ^ ((log2 den : Int) + 1) := by
    rw [show ((log2 den : Int) + 1) = ((log2 den + 1 : Nat) : Int) by push_cast; rfl,
      zpow_natCast]
    exact_mod_cast hdu
  have h2 : (0 : ℚ) < 2 := by norm_num
  -- the quotient lies strictly between 2^(l-1) and 2^(l+1)
  have hlow : (2 : ℚ) ^ ((log2 num : Int) - (log2 den : Int) - 1) < (num : ℚ) / den := by
    rw [lt_div_iff₀ hdQ]
    calc (2 : ℚ) ^ ((log2 num : Int) - (log2 den : Int) - 1) * den
        < (2 : ℚ) ^ ((log2 num : Int) - (log2 den : Int) - 1) * (2 : ℚ) ^ ((log2 den : Int) + 1) :=
          mul_lt_mul_of_pos_left hduQ (zpow_pos h2 _)
      _ = (2 : ℚ) ^ (log2 num : Int) := by
          rw [← zpow_add₀ (by norm_num : (2 : ℚ) ≠ 0)]; congr 1; ring
      _ ≤ num := hnlQ
  have hhigh : (num : ℚ) / den < (2 : ℚ) ^ ((log2 num : Int) - (log2 den : Int) + 1) := by
    rw [div_lt_iff₀ hdQ]
    calc (num : ℚ) < (2 : ℚ) ^ ((log2 num : Int) + 1) := hnuQ
      _ = (2 : ℚ) ^ ((log2 num : Int) - (log2 den : Int) + 1) * (2 : ℚ) ^ (log2 den : Int) := by
          rw [← zpow_add₀ (by norm_num : (2 : ℚ) ≠ 0)]; congr 1; ring
      _ ≤ (2 : ℚ) ^ ((log2 num : Int) - (log2 den : Int) + 1) * den :=
          mul_le_mul_of_nonneg_left hdlQ (le_of_lt (zpow_pos h2 _))
  unfold floorLog2
  simp only
  split
  · next htest =>
      exact ⟨(two_zpow_le_iff num den hd _).1 htest, hhigh⟩
  · next htest =>
      refine ⟨le_of_lt hlow, ?_⟩
      rw [sub_add_cancel]
      exact (lt_two_zpow_iff num den hd _).1 (by omega)

theorem roundHalfEven_bounds (n d : Nat) :
    n / d ≤ roundHalfEven n d ∧ roundHalfEven n d ≤ n / d + 1 := by
  unfold roundHalfEven
  simp only
  split
  · omega
  · split
    · omega
    · split <;> omega

theorem roundingExponent_spec (num den : Nat) (hn : 0 < num) (hd : 0 < den) :
    -1074 ≤ roundingExponent num den ∧
      (num : ℚ) / den < (2 : ℚ) ^ (roundingExponent num den + 53) ∧
      (-1074 < roundingExponent num den →
        (2 : ℚ) ^ (roundingExponent num den + 52) ≤ (num : ℚ) / den) := by
  obtain ⟨hl, hu⟩ := floorLog2_spec num den hn hd
  unfold roundingExponent
  refine ⟨le_max_right _ _, ?_, ?_⟩
  · refine lt_of_lt_of_le hu (zpow_le_zpow_right₀ (by norm_num) ?_)
    have := le_max_left (floorLog2 num den - 52) (-1074)
    omega
  · intro hgt
    have hmax : max (floorLog2 num den - 52) (-1074) = floorLog2 num den - 52 := by
      rcases max_choice (floorLog2 num den - 52) (-1074) with h | h
      · exact h
      · omega
    rw [hmax, sub_add_cancel]
    exact hl

/-- What `roundRat` returns when it returns a finite value: the sign asked
for, an exponent no lower than the subnormal one, a significand of at most 53
bits that is normalised above the subnormal exponent, a magnitude below
`2^1024`, and a value within half a unit in the last place of `num/den`. -/
theorem roundRat_fin (neg : Bool) (num den : Nat) (hn : 0 < num) (hd : 0 < den)
    (s : Bool) (m : Nat) (e : Int) (h : roundRat neg num den = .fin s m e) :
    s = neg ∧ -1074 ≤ e ∧ m ≤ 2 ^ 53 ∧ (-1074 < e → 2 ^ 52 ≤ m) ∧ finNum m e < 2 ^ 1024 ∧
      2 * (num * finDen e - m * (den * 2 ^ e.toNat)) ≤ den * 2 ^ e.toNat ∧
      2 * (m * (den * 2 ^ e.toNat) - num * finDen e) ≤ den * 2 ^ e.toNat := by
  have hn0 : num ≠ 0 := by omega
  unfold roundRat at h
  simp only [hn0, if_false] at h
  split at h
  · exact JSNum.noConfusion h
  · next hfin =>
    injection h with hs hm he
    subst hs
    subst he
    obtain ⟨hge, hup, hlow⟩ := roundingExponent_spec num den hn hd
    have hdpos : 0 < den * 2 ^ (roundingExponent num den).toNat :=
      Nat.mul_pos hd (by positivity)
    obtain ⟨hnear1, hnear2⟩ := roundHalfEven_nearest
      (num * finDen (roundingExponent num den))
      (den * 2 ^ (roundingExponent num den).toNat) hdpos
    obtain ⟨hb1, hb2⟩ := roundHalfEven_bounds
      (num * finDen (roundingExponent num den))
      (den * 2 ^ (roundingExponent num den).toNat)
    rw [hm] at hfin hnear1 hnear2 hb1 hb2
    have hdQ : (0 : ℚ) < den := by exact_mod_cast hd
    have hupQ : (0 : ℚ) < ((2 ^ (roundingExponent num den).toNat : Nat) : ℚ) := by positivity
    have hdnQ : (0 : ℚ) < ((finDen (roundingExponent num den) : Nat) : ℚ) := by
      unfold finDen; positivity
    have hzp : (2 : ℚ) ^ roundingExponent num den =
        ((2 ^ (roundingExponent num den).toNat : Nat) : ℚ) /
          ((finDen (roundingExponent num den) : Nat) : ℚ) := two_zpow_eq _
    refine ⟨rfl, hge, ?_, ?_, by omega, hnear1, hnear2⟩
    · -- the scaled quotient is below 2^53
      have hlt : num * finDen (roundingExponent num den) <
          2 ^ 53 * (den * 2 ^ (roundingExponent num den).toNat) := by
        rw [zpow_add₀ (by norm_num : (2 : ℚ) ≠ 0), hzp, div_lt_iff₀ hdQ] at hup
        have h3 : (num : ℚ) * (finDen (roundingExponent num den) : ℚ) <
            (2 : ℚ) ^ (53 : ℤ) * ((den : ℚ) * ((2 ^ (roundingExponent num den).toNat : Nat) : ℚ)) := by
          have := mul_lt_mul_of_pos_right hup hdnQ
          calc (num : ℚ) * (finDen (roundingExponent num den) : ℚ)
              < ((2 ^ (roundingExponent num den).toNat : Nat) : ℚ) /
                  (finDen (roundingExponent num den) : ℚ) * (2 : ℚ) ^ (53 : ℤ) * den *
                  (finDen (roundingExponent num den) : ℚ) := this
            _ = _ := by field_simp; ring
        have h4 : ((num * finDen (roundingExponent num den) : Nat) : ℚ) <
            ((2 ^ 53 * (den * 2 ^ (roundingExponent num den).toNat) : Nat) : ℚ) := by
          push_cast
          push_cast at h3
          norm_num at h3 ⊢
          linarith
        exact_mod_cast h4
      have hq : num * finDen (roundingExponent num den) /
          (den * 2 ^ (roundingExponent num den).toNat) < 2 ^ 53 :=
        (Nat.div_lt_iff_lt_mul hdpos).2 hlt
      omega
    · intro hgt
      have hl := hlow hgt
      have hle : 2 ^ 52 * (den * 2 ^ (roundingExponent num den).toNat) ≤
          num * finDen (roundingExponent num den) := by
        rw [zpow_add₀ (by norm_num : (2 : ℚ) ≠ 0), hzp, le_div_iff₀ hdQ] at hl
        have h3 : (2 : ℚ) ^ (52 : ℤ) * ((den : ℚ) * ((2 ^ (roundingExponent num den).toNat : Nat) : ℚ))
            ≤ (num : ℚ) * (finDen (roundingExponent num den) : ℚ) := by
          have := mul_le_mul_of_nonneg_right hl (le_of_lt hdnQ)
          calc (2 : ℚ) ^ (52 : ℤ) * ((den : ℚ) * ((2 ^ (roundingExponent num den).toNat : Nat) : ℚ))
              = ((2 ^ (roundingExponent num den).toNat : Nat) : ℚ) /
                  (finDen (roundingExponent num den) : ℚ) * (2 : ℚ) ^ (52 : ℤ) * den *
                  (finDen (roundingExponent num den) : ℚ) := by field_simp; ring
            _ ≤ _ := this
        have h4 : ((2 ^ 52 * (den * 2 ^ (roundingExponent num den).toNat) : Nat) : ℚ) ≤
            ((num * finDen (roundingExponent num den) : Nat) : ℚ) := by
          push_cast
          push_cast at h3
          norm_num at h3 ⊢
          linarith
        exact_mod_cast h4
      have hq : 2 ^ 52 ≤ num * finDen (roundingExponent num den) /
          (den * 2 ^ (roundingExponent num den).toNat) :=
        (Nat.le_div_iff_mul_le hdpos).2 hle
      omega

/-! ## The two readings of an amount: `Number(amount)` and `parseFloat(amount)` -/

theorem whiteSpace_not_digit (c : Char) (h : isStrWhiteSpaceChar c = true) :
    isDecimalDigit c = false := by
  simp only [isStrWhiteSpaceChar, Bool.or_eq_true, Bool.and_eq_true, beq_iff_eq,
    decide_eq_true_eq] at h
  simp only [isDecimalDigit, Bool.and_eq_false_iff, decide_eq_false_iff_not]
  omega

theorem whiteSpace_ne (c x : Char) (h : isStrWhiteSpaceChar c = true)
    (hx : isStrWhiteSpaceChar x = false) : x ≠ c := by
  intro heq
  subst heq
  rw [h] at hx
  exact Bool.noConfusion hx

theorem takeWhile_append_inert (p : Char → Bool) (r w : List Char)
    (hw : ∀ c, w.head? = some c → p c = false) :
    (r ++ w).takeWhile p = r.takeWhile p ∧ (r ++ w).dropWhile p = r.dropWhile p ++ w := by
  induction r with
  | nil =>
      cases w with
      | nil => simp
      | cons c w2 =>
          have hc := hw c rfl
          simp [List.takeWhile, List.dropWhile, hc]
  | cons x r ih =>
      cases hx : p x
      · simp [List.takeWhile, List.dropWhile, hx]
      · simp [List.takeWhile, List.dropWhile, hx, ih.1, ih.2]

theorem digits_append_inert (r w : List Char) (hw : startsInert w) :
    (r ++ w).takeWhile isDecimalDigit = r.takeWhile isDecimalDigit ∧
      (r ++ w).dropWhile isDecimalDigit = r.dropWhile isDecimalDigit ++ w :=
  takeWhile_append_inert isDecimalDigit r w (fun c hc => whiteSpace_not_digit c (hw c hc))

theorem stripSign_append (cs w : List Char) (hw : startsInert w) :
    stripSign (cs ++ w) = ((stripSign cs).1, (stripSign cs).2 ++ w) := by
  cases cs with
  | nil =>
      cases w with
      | nil => rfl
      | cons c w2 =>
          have hc := hw c rfl
          have h1 : c ≠ '+' := fun h => whiteSpace_ne c '+' hc (by decide) h.symm
          have h2 : c ≠ '-' := fun h => whiteSpace_ne c '-' hc (by decide) h.symm
          simp [stripSign, h1, h2]
  | cons c r =>
      by_cases h1 : c = '+'
      · simp [stripSign, h1]
      · by_cases h2 : c = '-'
        · simp [stripSign, h2]
        · simp [stripSign, h1, h2]

theorem parseExponent_append (r w : List Char) (hw : startsInert w) :
    parseExponent (r ++ w) = ((parseExponent r).1, (parseExponent r).2 ++ w) := by
  cases r with
  | nil =>
      cases w with
      | nil => rfl
      | cons c w2 =>
          have hc := hw c rfl
          have h1 : c ≠ 'e' := fun h => whiteSpace_ne c 'e' hc (by decide) h.symm
          have h2 : c ≠ 'E' := fun h => whiteSpace_ne c 'E' hc (by decide) h.symm
          simp [parseExponent, h1, h2]
  | cons c rest =>
      have hs := stripSign_append rest w hw
      have hd := digits_append_inert (stripSign rest).2 w hw
      by_cases he : c = 'e' ∨ c = 'E'
      · by_cases hempty : ((stripSign rest).2.takeWhile isDecimalDigit).isEmpty = true
        · simp only [List.cons_append, parseExponent, he, if_true, hs, hd.1, hempty]
        · simp only [List.cons_append, parseExponent, he, if_true, hs, hd.1, hd.2, hempty,
            if_false, Bool.false_eq_true]
      · simp only [List.cons_append, parseExponent, he, if_false]

theorem dropLeading_append_some (p : List Char) :
    ∀ r rest w : List Char, dropLeading p r = some rest →
      dropLeading p (r ++ w) = some (rest ++ w) := by
  induction p with
  | nil => intro r rest w h; simp [dropLeading] at h ⊢; rw [h]
  | cons x ps ih =>
      intro r rest w h
      cases r with
      | nil => simp [dropLeading] at h
      | cons y r2 =>
          by_cases hxy : x = y
          · simp only [dropLeading, hxy, if_true] at h
            simp only [List.cons_append, dropLeading, hxy, if_true]
            exact ih r2 rest w h
          · simp [dropLeading, hxy] at h

theorem dropLeading_append_none (p : List Char)
    (hp : ∀ x ∈ p, isStrWhiteSpaceChar x = false) :
    ∀ r w : List Char, startsInert w → dropLeading p r = none →
      dropLeading p (r ++ w) = none := by
  induction p with
  | nil => intro r w _ h; simp [dropLeading] at h
  | cons x ps ih =>
      intro r w hw h
      cases r with
      | nil =>
          cases w with
          | nil => rfl
          | cons c w2 =>
              have hc := hw c rfl
              have hne : x ≠ c := whiteSpace_ne c x hc (hp x (List.mem_cons_self _ _))
              simp [dropLeading, hne]
      | cons y r2 =>
          by_cases hxy : x = y
          · simp only [dropLeading, hxy, if_true] at h
            simp only [List.cons_append, dropLeading, hxy, if_true]
            exact ih (fun z hz => hp z (List.mem_cons_of_mem _ hz)) r2 w hw h
          · simp [dropLeading, hxy]

theorem parseAfterPoint_append (ip r2 w : List Char) (hw : startsInert w) :
    parseAfterPoint ip (r2 ++ w) =
      (parseAfterPoint ip r2).map (fun p => (p.1, p.2 ++ w)) := by
  have hd := digits_append_inert r2 w hw
  have he := parseExponent_append (r2.dropWhile isDecimalDigit) w hw
  unfold parseAfterPoint
  rw [hd.1, hd.2, he]
  by_cases h : ip.isEmpty = true ∧ (r2.takeWhile isDecimalDigit).isEmpty = true
  · rw [if_pos h, if_pos h]; rfl
  · rw [if_neg h, if_neg h]; rfl

theorem parseNoPoint_append (ip r1 w : List Char) (hw : startsInert w) :
    parseNoPoint ip (r1 ++ w) = (parseNoPoint ip r1).map (fun p => (p.1, p.2 ++ w)) := by
  have he := parseExponent_append r1 w hw
  unfold parseNoPoint
  rw [he]
  by_cases h : ip.isEmpty = true
  · rw [if_pos h, if_pos h]; rfl
  · rw [if_neg h, if_neg h]; rfl

theorem infinity_not_whiteSpace :
    ∀ x ∈ "Infinity".toList, isStrWhiteSpaceChar x = false := by
  decide

theorem parseStrUnsignedDecimalLiteral_append (cs w : List Char) (hw : startsInert w) :
    parseStrUnsignedDecimalLiteral (cs ++ w) =
      (parseStrUnsignedDecimalLiteral cs).map (fun p => (p.1, p.2 ++ w)) := by
  have hd := digits_append_inert cs w hw
  unfold parseStrUnsignedDecimalLiteral
  cases hinf : dropLeading "Infinity".toList cs with
  | some rest =>
      rw [dropLeading_append_some _ cs rest w hinf]
      rfl
  | none =>
      rw [dropLeading_append_none _ infinity_not_whiteSpace cs w hw hinf]
      simp only [hd.1, hd.2]
      cases hrest : cs.dropWhile isDecimalDigit with
      | nil =>
          have h0 := parseNoPoint_append (cs.takeWhile isDecimalDigit) [] w hw
          simp only [List.nil_append] at h0 ⊢
          cases w with
          | nil => simp
          | cons c w2 =>
              have hc := hw c rfl
              have hne : c ≠ '.' := fun h => whiteSpace_ne c '.' hc (by decide) h.symm
              simp only [hne, if_false]
              exact h0
      | cons c r2 =>
          simp only [List.cons_append]
          by_cases hpt : c = '.'
          · simp only [hpt, if_true]
            exact parseAfterPoint_append _ r2 w hw
          · simp only [hpt, if_false]
            exact parseNoPoint_append _ (c :: r2) w hw

/-- White space after a numeral is, to the parser, the end of the input. -/
theorem parseStrDecimalLiteral_append (cs w : List Char) (hw : startsInert w) :
    parseStrDecimalLiteral (cs ++ w) =
      (parseStrDecimalLiteral cs).map (fun p => (p.1, p.2 ++ w)) := by
  have hs := stripSign_append cs w hw
  have hu := parseStrUnsignedDecimalLiteral_append (stripSign cs).2 w hw
  unfold parseStrDecimalLiteral
  rw [hs]
  simp only [hu]
  cases parseStrUnsignedDecimalLiteral (stripSign cs).2 with
  | none => rfl
  | some p => rfl

theorem dropWhile_eq_trim_append (l : List Char) :
    ∃ w, l.dropWhile isStrWhiteSpaceChar = trimWhiteSpace l ++ w ∧ startsInert w := by
  refine ⟨(((l.dropWhile isStrWhiteSpaceChar).reverse).takeWhile isStrWhiteSpaceChar).reverse,
    ?_, ?_⟩
  · unfold trimWhiteSpace
    rw [← List.reverse_append, List.takeWhile_append_dropWhile, List.reverse_reverse]
  · intro c hc
    have hmem : c ∈ (((l.dropWhile isStrWhiteSpaceChar).reverse).takeWhile
        isStrWhiteSpaceChar).reverse := List.mem_of_mem_head? hc
    rw [List.mem_reverse] at hmem
    exact List.mem_takeWhile_imp hmem

theorem roundRat_not_nan (neg : Bool) (num den : Nat) : (roundRat neg num den).isNaN = false := by
  unfold roundRat
  split
  · rfl
  · simp only
    split <;> rfl

theorem parseStrDecimalLiteral_not_nan (cs rest : List Char) (v : JSNum)
    (h : parseStrDecimalLiteral cs = some (v, rest)) : v.isNaN = false := by
  unfold parseStrDecimalLiteral at h
  cases hu : parseStrUnsignedDecimalLiteral (stripSign cs).2 with
  | none => simp [hu] at h
  | some p =>
      obtain ⟨d, r⟩ := p
      simp only [hu, Option.some.injEq, Prod.mk.injEq] at h
      rw [← h.1]
      cases d with
      | infinity => rfl
      | decimal m ex => exact roundRat_not_nan _ _ _

theorem parseFloat_of_parse (s : String) (v : JSNum) (rest : List Char)
    (h : parseStrDecimalLiteral (trimWhiteSpace s.toList) = some (v, rest)) :
    parseFloat s = v := by
  obtain ⟨w, hw, hinert⟩ := dropWhile_eq_trim_append s.toList
  unfold parseFloat
  rw [hw, parseStrDecimalLiteral_append _ w hinert, h]
  rfl

/-- On an amount that is not blank and not a `0x`/`0o`/`0b` literal, and that
`Number` reads as a number, `parseFloat` reads the same number. -/
theorem parseFloat_eq_stringToNumber (s : String) (hblank : isBlank s = false)
    (hdec : isNonDecimalLiteral s = false) (hnum : (stringToNumber s).isNaN = false) :
    parseFloat s = stringToNumber s := by
  have hne : (trimWhiteSpace s.toList).isEmpty = false := hblank
  have hnd : parseNonDecimalIntegerLiteral (trimWhiteSpace s.toList) = none := by
    simpa [isNonDecimalLiteral] using hdec
  have hst : stringToNumber s =
      (match parseStrDecimalLiteral (trimWhiteSpace s.toList) with
        | some (v, []) => v
        | _ => .nan) := by
    simp only [stringToNumber, hne, hnd, Bool.false_eq_true, if_false]
  cases hp : parseStrDecimalLiteral (trimWhiteSpace s.toList) with
  | none => rw [hst, hp] at hnum; exact Bool.noConfusion hnum
  | some p =>
      obtain ⟨v, rest⟩ := p
      cases rest with
      | nil =>
          rw [hst, hp]
          exact parseFloat_of_parse s v [] hp
      | cons c r => rw [hst, hp] at hnum; exact Bool.noConfusion hnum

theorem infinity_chars : "Infinity".toList = ['I', 'n', 'f', 'i', 'n', 'i', 't', 'y'] := by
  decide

theorem parseStrDecimalLiteral_zero_start (rest : List Char) :
    (parseStrDecimalLiteral ('0' :: rest)).isSome = true := by
  have hsign : stripSign ('0' :: rest) = (false, '0' :: rest) := by
    simp [stripSign]
  have hinf : dropLeading "Infinity".toList ('0' :: rest) = none := by
    rw [infinity_chars]
    simp [dropLeading]
  have hd : isDecimalDigit '0' = true := by decide
  have htake : ('0' :: rest).takeWhile isDecimalDigit = '0' :: rest.takeWhile isDecimalDigit := by
    simp [List.takeWhile, hd]
  have hdrop : ('0' :: rest).dropWhile isDecimalDigit = rest.dropWhile isDecimalDigit := by
    simp [List.dropWhile, hd]
  have hu : (parseStrUnsignedDecimalLiteral ('0' :: rest)).isSome = true := by
    unfold parseStrUnsignedDecimalLiteral
    rw [hinf]
    simp only [htake, hdrop]
    cases rest.dropWhile isDecimalDigit with
    | nil => simp [parseNoPoint]
    | cons c r2 =>
        by_cases hpt : c = '.'
        · simp [hpt, parseAfterPoint]
        · simp [hpt, parseNoPoint]
  unfold parseStrDecimalLiteral
  rw [hsign]
  cases hp : parseStrUnsignedDecimalLiteral ('0' :: rest) with
  | none => rw [hp] at hu; exact Bool.noConfusion hu
  | some p => rfl

theorem nonDecimal_starts_zero (t : List Char) (v : Nat)
    (h : parseNonDecimalIntegerLiteral t = some v) : ∃ rest, t = '0' :: rest := by
  unfold parseNonDecimalIntegerLiteral at h
  split at h
  · next c ds => exact ⟨c :: ds, rfl⟩
  · exact Option.noConfusion h

/-- Whatever `Number` reads as a number on a non-blank amount, `parseFloat`
reads as some number too. -/
theorem parseFloat_not_nan (s : String) (hblank : isBlank s = false)
    (hnum : (stringToNumber s).isNaN = false) : (parseFloat s).isNaN = false := by
  cases hdec : isNonDecimalLiteral s with
  | false => rw [parseFloat_eq_stringToNumber s hblank hdec hnum]; exact hnum
  | true =>
      have hsome : (parseNonDecimalIntegerLiteral (trimWhiteSpace s.toList)).isSome = true := hdec
      obtain ⟨v, hv⟩ := Option.isSome_iff_exists.1 hsome
      obtain ⟨rest, hrest⟩ := nonDecimal_starts_zero _ v hv
      have hz := parseStrDecimalLiteral_zero_start rest
      rw [← hrest] at hz
      obtain ⟨p, hp⟩ := Option.isSome_iff_exists.1 hz
      obtain ⟨x, r⟩ := p
      rw [parseFloat_of_parse s x r hp]
      exact parseStrDecimalLiteral_not_nan _ r x hp

/-- A non-blank amount that `parseFloat` reads as NaN is NaN to `isNaN` too. -/
theorem isNaN_of_parseFloat_nan (s : String) (hblank : isBlank s = false)
    (h : (parseFloat s).isNaN = true) : isNaN s = true := by
  cases hn : isNaN s with
  | true => rfl
  | false =>
      have := parseFloat_not_nan s hblank hn
      rw [this] at h
      exact Bool.noConfusion h

theorem stringToNumber_of_blank (s : String) (h : isBlank s = true) :
    stringToNumber s = .fin false 0 0 := by
  have hb : (trimWhiteSpace s.toList).isEmpty = true := h
  simp only [stringToNumber, hb, if_true]

theorem not_blank_of_positive (s : String) (h : (stringToNumber s).isPositive = true) :
    isBlank s = false := by
  cases hb : isBlank s with
  | false => rfl
  | true =>
      rw [stringToNumber_of_blank s hb] at h
      exact Bool.noConfusion h

theorem not_nan_of_positive (x : JSNum) (h : x.isPositive = true) : x.isNaN = false := by
  cases x with
  | nan => exact Bool.noConfusion h
  | inf neg => rfl
  | fin neg m e => rfl

theorem valid_of_positive (s : String) (h : (stringToNumber s).isPositive = true) :
    invalidAmount s = false := by
  have hb := not_blank_of_positive s h
  have hn := not_nan_of_positive _ h
  have hne : s ≠ "" := by
    intro he
    subst he
    exact Bool.noConfusion hb
  simp [invalidAmount, isNaN, hn, hne]

/-! ## Properties of the handlers -/

theorem mul_nan_right (x : JSNum) : JSNum.mul x .nan = .nan := by
  cases x <;> rfl

theorem invalidAmount_iff (amount : String) :
    invalidAmount amount = true ↔ amount = "" ∨ isNaN amount = true := by
  simp [invalidAmount]

theorem rates_not_index : "rates" ≠ "length" ∧ arrayIndex "rates" = none := by
  decide!

/-- The `try` block of `convertCurrency` throws exactly on the responses that
`unreadable` describes by their shape. -/
theorem rateOf_eq_none_iff (resp : FetchResult) (toCurrency : Option String) :
    rateOf resp toCurrency = none ↔ resp.unreadable = true := by
  obtain ⟨h1, h2⟩ := rates_not_index
  cases resp with
  | networkError => simp [rateOf, FetchResult.data, FetchResult.unreadable]
  | badStatus code => simp [rateOf, FetchResult.data, FetchResult.unreadable]
  | response data =>
      cases data with
      | null => simp [rateOf, FetchResult.data, FetchResult.unreadable, getProperty]
      | bool b => simp [rateOf, FetchResult.data, FetchResult.unreadable, getProperty]
      | num x => simp [rateOf, FetchResult.data, FetchResult.unreadable, getProperty]
      | str s =>
          simp [rateOf, FetchResult.data, FetchResult.unreadable, getProperty, h1, h2]
      | arr items =>
          simp [rateOf, FetchResult.data, FetchResult.unreadable, getProperty, h1, h2]
      | obj members =>
          cases hm : getMember members "rates" with
          | none => simp [rateOf, FetchResult.data, FetchResult.unreadable, getProperty, hm]
          | some rates =>
              cases rates with
              | null => simp [rateOf, FetchResult.data, FetchResult.unreadable, getProperty, hm]
              | bool b => simp [rateOf, FetchResult.data, FetchResult.unreadable, getProperty, hm]
              | num x => simp [rateOf, FetchResult.data, FetchResult.unreadable, getProperty, hm]
              | str s =>
                  by_cases hk : toStr toCurrency = "length" <;>
                    simp [rateOf, FetchResult.data, FetchResult.unreadable, getProperty, hm, hk]
              | arr items =>
                  by_cases hk : toStr toCurrency = "length" <;>
                    simp [rateOf, FetchResult.data, FetchResult.unreadable, getProperty, hm, hk]
              | obj entries =>
                  simp [rateOf, FetchResult.data, FetchResult.unreadable, getProperty, hm]

theorem rateOf_of_rates_object (members entries : List (String × JsonValue))
    (toCurrency : Option String) (hrates : getMember members "rates" = some (.obj entries)) :
    rateOf (.response (.obj members)) toCurrency =
      some (getMember entries (toStr toCurrency)) := by
  simp [rateOf, FetchResult.data, getProperty, hrates]

/-- What `convertCurrency` does on an amount its guard rejects. -/
theorem convertCurrency_rejected (w : World) (resp : FetchResult) (writeOk : Bool)
    (hv : invalidAmount w.screen.amount = true) :
    (w.run (convertCurrency w.screen resp writeOk)).alerts =
        w.alerts ++ [("Invalid Amount", "Please enter a valid numeric amount.")] ∧
      (convertCurrency w.screen resp writeOk).all (fun e => !e.isHttpGet) = true ∧
      (w.run (convertCurrency w.screen resp writeOk)).requests = w.requests ∧
      (w.run (convertCurrency w.screen resp writeOk)).screen.convertedAmount =
        w.screen.convertedAmount ∧
      (w.run (convertCurrency w.screen resp writeOk)).store = w.store := by
  simp [convertCurrency, hv, World.run, World.apply, Effect.isHttpGet]

/-- What `convertCurrency` does on an accepted amount when the rate is read. -/
theorem convertCurrency_accepted (w : World) (resp : FetchResult) (writeOk : Bool)
    (rate : Option JsonValue) (hv : invalidAmount w.screen.amount = false)
    (hrate : rateOf resp w.screen.toCurrency = some rate) :
    convertCurrency w.screen resp writeOk =
      .setLoading true ::
        .httpGet ("https://api.exchangerate-api.com/v4/latest/" ++ toStr w.screen.fromCurrency) ::
        .setConvertedAmount (conversionResult w.screen.amount rate) ::
        (saveLastConversionAmount (conversionResult w.screen.amount rate) writeOk ++
          [.setLoading false]) := by
  simp [convertCurrency, hv, hrate]

/-- C2 as stated fails at a blank amount (a single space): parseFloat reads
it as NaN, yet the guard lets it through, the rate request is issued, no
alert is raised, and NaN is displayed and stored. -/
theorem convertCurrency_accepts_blank_amount :
    isBlank " " = true ∧ (parseFloat " ").isNaN = true ∧
      (convertCurrency (exampleWorld " ").screen
        (.response (.obj (ratesBody "USD" [("EUR", .num (ofDecimal false 9 (-1)))]))) true).any
          Effect.isHttpGet = true ∧
      ((exampleWorld " ").run (convertCurrency (exampleWorld " ").screen
        (.response (.obj (ratesBody "USD" [("EUR", .num (ofDecimal false 9 (-1)))])))
          true)).alerts = [] ∧
      ((exampleWorld " ").run (convertCurrency (exampleWorld " ").screen
        (.response (.obj (ratesBody "USD" [("EUR", .num (ofDecimal false 9 (-1)))])))
          true)).screen.convertedAmount = "NaN" ∧
      ((exampleWorld " ").run (convertCurrency (exampleWorld " ").screen
        (.response (.obj (ratesBody "USD" [("EUR", .num (ofDecimal false 9 (-1)))])))
          true)).store storageKey = some "NaN" := by
  decide!

/-- C2 (amended): for every amount that is empty, or that Number reads as
NaN, or that is not blank and that parseFloat reads as NaN, convertCurrency
raises the Invalid Amount alert, issues no request, and leaves the displayed
result and the stored value as they were. -/
theorem convertCurrency_invalid_amount (w : World) (resp : FetchResult) (writeOk : Bool)
    (h : w.screen.amount = "" ∨ isNaN w.screen.amount = true ∨
      (isBlank w.screen.amount = false ∧ (parseFloat w.screen.amount).isNaN = true)) :
    (w.run (convertCurrency w.screen resp writeOk)).alerts =
        w.alerts ++ [("Invalid Amount", "Please enter a valid numeric amount.")] ∧
      (convertCurrency w.screen resp writeOk).all (fun e => !e.isHttpGet) = true ∧
      (w.run (convertCurrency w.screen resp writeOk)).requests = w.requests ∧
      (w.run (convertCurrency w.screen resp writeOk)).screen.convertedAmount =
        w.screen.convertedAmount ∧
      (w.run (convertCurrency w.screen resp writeOk)).store = w.store := by
  have hv : invalidAmount w.screen.amount = true := by
    rw [invalidAmount_iff]
    rcases h with h | h | ⟨hb, hp⟩
    · exact Or.inl h
    · exact Or.inr h
    · exact Or.inr (isNaN_of_parseFloat_nan _ hb hp)
  exact convertCurrency_rejected w resp writeOk hv

/-- C2 at amount abc: not blank, NaN to parseFloat, rejected. -/
theorem convertCurrency_invalid_amount_witness :
    (isBlank "abc" = false ∧ (parseFloat "abc").isNaN = true) ∧
      ((exampleWorld "abc").run
          (convertCurrency (exampleWorld "abc").screen .networkError true)).alerts =
        [("Invalid Amount", "Please enter a valid numeric amount.")] ∧
      ((exampleWorld "abc").run
          (convertCurrency (exampleWorld "abc").screen .networkError true)).requests = [] :=
  ⟨by decide!,
    (convertCurrency_invalid_amount (exampleWorld "abc") .networkError true
      (Or.inr (Or.inr (by decide!)))).1,
    (convertCurrency_invalid_amount (exampleWorld "abc") .networkError true
      (Or.inr (Or.inr (by decide!)))).2.2.1⟩

/-- C3 as stated fails on a malformed body that can still be read: with the
rate given as the text n/a, or with rates itself a text, nothing throws, no
alert is raised, and NaN replaces the displayed result and is stored. -/
theorem convertCurrency_malformed_rates_overwrites :
    ((exampleWorld "10").run (convertCurrency (exampleWorld "10").screen
        (.response (.obj (ratesBody "USD" [("EUR", .str "n/a")]))) true)).screen.convertedAmount
        = "NaN" ∧
      ((exampleWorld "10").run (convertCurrency (exampleWorld "10").screen
        (.response (.obj (ratesBody "USD" [("EUR", .str "n/a")]))) true)).store storageKey
        = some "NaN" ∧
      ((exampleWorld "10").run (convertCurrency (exampleWorld "10").screen
        (.response (.obj (ratesBody "USD" [("EUR", .str "n/a")]))) true)).alerts = [] ∧
      (exampleWorld "10").screen.convertedAmount = "" ∧
      (exampleWorld "10").store storageKey = none ∧
      ((exampleWorld "10").run (convertCurrency (exampleWorld "10").screen
        (.response (.obj [("rates", .str "unavailable")])) true)).screen.convertedAmount
        = "NaN" ∧
      ((exampleWorld "10").run (convertCurrency (exampleWorld "10").screen
        (.response (.obj [("rates", .str "unavailable")])) true)).store storageKey
        = some "NaN" := by
  decide!

/-- C3 (amended): when the rate fetch fails by a network error, a bad
status, or a body from which no rates value can be read (null, not an object,
no rates member, or rates null), convertCurrency displays nothing and writes
nothing: the displayed result and the store after the call are what they were
before it. -/
theorem convertCurrency_fetch_failed (w : World) (resp : FetchResult) (writeOk : Bool)
    (h : resp.unreadable = true) :
    (w.run (convertCurrency w.screen resp writeOk)).screen.convertedAmount =
        w.screen.convertedAmount ∧
      (w.run (convertCurrency w.screen resp writeOk)).store = w.store ∧
      (convertCurrency w.screen resp writeOk).all (fun e => !e.writesResult) = true := by
  have hnone : rateOf resp w.screen.toCurrency = none := (rateOf_eq_none_iff resp _).2 h
  cases hv : invalidAmount w.screen.amount <;>
    simp [convertCurrency, hv, hnone, World.run, World.apply, Effect.writesResult]

/-- C3 at amount 10 with a rejected request, and with a body that is not
JSON: the displayed result stays empty. -/
theorem convertCurrency_fetch_failed_witness :
    ((exampleWorld "10").run
        (convertCurrency (exampleWorld "10").screen (.badStatus 500) true)).screen.convertedAmount
      = "" ∧
    ((exampleWorld "10").run
        (convertCurrency (exampleWorld "10").screen (.response (.str "Bad Gateway"))
          true)).screen.convertedAmount = "" :=
  ⟨(convertCurrency_fetch_failed (exampleWorld "10") (.badStatus 500) true rfl).1,
    (convertCurrency_fetch_failed (exampleWorld "10") (.response (.str "Bad Gateway")) true
      rfl).1⟩

/-- C7: one swap exchanges from and to, a second swap restores the whole
world, and a swap touches nothing else and issues no request. -/
theorem swapCurrencies_involutive (w : World) :
    (w.run (swapCurrencies w.screen)).screen.fromCurrency = w.screen.toCurrency ∧
      (w.run (swapCurrencies w.screen)).screen.toCurrency = w.screen.fromCurrency ∧
      (w.run (swapCurrencies w.screen)).run
          (swapCurrencies (w.run (swapCurrencies w.screen)).screen) = w ∧
      (w.run (swapCurrencies w.screen)).screen.amount = w.screen.amount ∧
      (w.run (swapCurrencies w.screen)).screen.convertedAmount = w.screen.convertedAmount ∧
      (w.run (swapCurrencies w.screen)).screen.currencies = w.screen.currencies ∧
      (w.run (swapCurrencies w.screen)).screen.loading = w.screen.loading ∧
      (w.run (swapCurrencies w.screen)).store = w.store ∧
      (w.run (swapCurrencies w.screen)).requests = w.requests ∧
      (swapCurrencies w.screen).all (fun e => !e.isHttpGet) = true := by
  simp [swapCurrencies, World.run, World.apply, Effect.isHttpGet]

/-- C8: clearing twice gives the same world as clearing once; after a clear
the amount and the displayed result are empty; the store, the currency list
and the from/to selection are untouched. -/
theorem clearFields_idempotent (w : World) :
    (w.run clearFields).run clearFields = w.run clearFields ∧
      (w.run clearFields).screen.amount = "" ∧
      (w.run clearFields).screen.convertedAmount = "" ∧
      (w.run clearFields).store = w.store ∧
      (w.run clearFields).screen.currencies = w.screen.currencies ∧
      (w.run clearFields).screen.fromCurrency = w.screen.fromCurrency ∧
      (w.run clearFields).screen.toCurrency = w.screen.toCurrency := by
  simp [clearFields, World.run, World.apply]

/-- C10: when the fetched rates object has no entry for the target currency,
the product is NaN, no alert is raised, the displayed result becomes the
string NaN and that string is what the store then holds under the fixed key. -/
theorem convertCurrency_missing_rate (w : World) (members entries : List (String × JsonValue))
    (hvalid : invalidAmount w.screen.amount = false)
    (hrates : getMember members "rates" = some (.obj entries))
    (hmiss : getMember entries (toStr w.screen.toCurrency) = none) :
    (JSNum.mul (parseFloat w.screen.amount)
        (toNumber (getMember entries (toStr w.screen.toCurrency)))).isNaN = true ∧
      (convertCurrency w.screen (.response (.obj members)) true).all
        (fun e => !e.isAlert) = true ∧
      (w.run (convertCurrency w.screen (.response (.obj members)) true)).alerts = w.alerts ∧
      (w.run (convertCurrency w.screen (.response (.obj members)) true)).screen.convertedAmount
        = "NaN" ∧
      (w.run (convertCurrency w.screen (.response (.obj members)) true)).store storageKey
        = some "NaN" := by
  have hrate := rateOf_of_rates_object members entries w.screen.toCurrency hrates
  rw [hmiss] at hrate
  have hres : conversionResult w.screen.amount none = "NaN" := by
    simp [conversionResult, toNumber, mul_nan_right, JSNum.toFixed]
  rw [convertCurrency_accepted w _ true none hvalid hrate, hres, hmiss]
  simp [toNumber, mul_nan_right, JSNum.isNaN, saveLastConversionAmount, World.run, World.apply,
    Effect.isAlert]

/-! ## Decimal digits: structure of the rendering -/

theorem digitChar_isDecimalDigit (d : Nat) : isDecimalDigit (digitChar d) = true := by
  have h : d % 10 < 10 := Nat.mod_lt _ (by decide)
  unfold digitChar
  generalize d % 10 = k at h
  interval_cases k <;> decide

theorem natDigitsAux_eq (n : Nat) :
    ∀ fuel acc, n < fuel → natDigitsAux fuel n acc = natDigitsAux (n + 1) n [] ++ acc := by
  induction n using Nat.strong_induction_on with
  | _ n ih =>
    intro fuel acc hlt
    obtain ⟨k, rfl⟩ : ∃ k, fuel = k + 1 := ⟨fuel - 1, by omega⟩
    by_cases h10 : n < 10
    · simp [natDigitsAux, h10]
    · have hdiv : n / 10 < n := Nat.div_lt_self (by omega) (by decide)
      have hk : n / 10 < k := by omega
      simp only [natDigitsAux, h10, if_false]
      rw [ih (n / 10) hdiv k _ hk, ih (n / 10) hdiv n _ hdiv]
      simp

theorem natDigits_lt_ten (n : Nat) (h : n < 10) : natDigits n = [digitChar n] := by
  simp [natDigits, natDigitsAux, h]

theorem natDigits_ge_ten (n : Nat) (h : 10 ≤ n) :
    natDigits n = natDigits (n / 10) ++ [digitChar (n % 10)] := by
  have h10 : ¬ n < 10 := by omega
  have hdiv : n / 10 < n := Nat.div_lt_self (by omega) (by decide)
  have hstep : natDigitsAux (n + 1) n [] = natDigitsAux n (n / 10) [digitChar (n % 10)] := by
    simp [natDigitsAux, h10]
  unfold natDigits
  rw [hstep, natDigitsAux_eq (n / 10) n _ hdiv]

theorem natDigits_ne_nil (n : Nat) : natDigits n ≠ [] := by
  by_cases h : n < 10
  · simp [natDigits_lt_ten n h]
  · rw [natDigits_ge_ten n (by omega)]; simp

theorem natDigits_all_digits (n : Nat) : (natDigits n).all isDecimalDigit = true := by
  induction n using Nat.strong_induction_on with
  | _ n ih =>
    by_cases h : n < 10
    · simp [natDigits_lt_ten n h, digitChar_isDecimalDigit]
    · have hdiv : n / 10 < n := Nat.div_lt_self (by omega) (by decide)
      rw [natDigits_ge_ten n (by omega), List.all_append, ih (n / 10) hdiv]
      simp [digitChar_isDecimalDigit]

theorem digitChar_zero : digitChar 0 = '0' := by decide

theorem natDigits_split (n : Nat) (h : 100 ≤ n) :
    natDigits n = natDigits (n / 100) ++ [digitChar (n / 10 % 10), digitChar (n % 10)] := by
  rw [natDigits_ge_ten n (by omega), natDigits_ge_ten (n / 10) (by omega),
    Nat.div_div_eq_div_mul]
  simp

theorem take_drop_two (a : List Char) (x y : Char) :
    (a ++ [x, y]).take ((a ++ [x, y]).length - 2) ++
      ('.' :: (a ++ [x, y]).drop ((a ++ [x, y]).length - 2)) = a ++ ['.', x, y] := by
  have hlen : (a ++ [x, y]).length - 2 = a.length := by simp
  rw [hlen, List.take_left, List.drop_left]

/-- The digit work of `toFixed(2)` on the scaled integer `n`: pad to three
digits, then put the point before the last two. -/
theorem fixed_two_digits (n : Nat) :
    (if (2 : Nat) ≠ 0 ∧ (if n = 0 then ['0'] else natDigits n).length ≤ 2 then
        List.replicate (2 + 1 - (if n = 0 then ['0'] else natDigits n).length) '0' ++
          (if n = 0 then ['0'] else natDigits n)
      else (if n = 0 then ['0'] else natDigits n)) =
      natDigits (n / 100) ++ [digitChar (n / 10 % 10), digitChar (n % 10)] := by
  have hd : (if n = 0 then ['0'] else natDigits n) = natDigits n := by
    split
    · subst n; rfl
    · rfl
  rw [hd]
  by_cases h100 : 100 ≤ n
  · have hs := natDigits_split n h100
    have hne := natDigits_ne_nil (n / 100)
    have hpos : 0 < (natDigits (n / 100)).length := List.length_pos.2 hne
    have hl : (natDigits n).length = (natDigits (n / 100)).length + 2 := by
      conv_lhs => rw [hs]
      simp
    have hlen : ¬ (natDigits n).length ≤ 2 := by omega
    simp [hlen]
    exact hs
  · by_cases h10 : 10 ≤ n
    · have h1 : n / 10 < 10 := by omega
      have h2 : n / 100 = 0 := by omega
      have h3 : n / 10 % 10 = n / 10 := Nat.mod_eq_of_lt h1
      rw [natDigits_ge_ten n h10, natDigits_lt_ten _ h1, h2, h3,
        natDigits_lt_ten 0 (by decide), digitChar_zero]
      simp [List.replicate]
    · have h1 : n < 10 := by omega
      have h2 : n / 100 = 0 := by omega
      have h3 : n / 10 % 10 = 0 := by omega
      rw [natDigits_lt_ten n h1, h2, h3, natDigits_lt_ten 0 (by decide), digitChar_zero,
        Nat.mod_eq_of_lt h1]
      simp [List.replicate]

/-- For a finite value of magnitude below `10^21`, `toFixed(2)` is the sign,
the decimal digits of `n / 100`, a point, and the two digits of `n % 100`,
where `n` is the integer nearest to a hundred times the magnitude. -/
theorem toFixed_two (neg : Bool) (m : Nat) (e : Int)
    (h : finNum m e < 10 ^ 21 * finDen e) :
    (JSNum.fin neg m e).toFixed 2 =
      (if neg ∧ m ≠ 0 then ['-'] else []) ++
        (natDigits (nearestScaled (finNum m e) (finDen e) 2 / 100) ++
          ['.', digitChar (nearestScaled (finNum m e) (finDen e) 2 / 10 % 10),
            digitChar (nearestScaled (finNum m e) (finDen e) 2 % 10)]) := by
  have hnot : ¬ 10 ^ 21 * finDen e ≤ finNum m e := by omega
  simp only [JSNum.toFixed, hnot, if_false]
  rw [fixed_two_digits]
  simp only [show ¬ (2 : Nat) = 0 by decide, if_false]
  rw [take_drop_two]

theorem isTwoDecimalString_fixed (sign : Bool) (ip : List Char) (x y : Char)
    (hne : ip ≠ []) (hip : ip.all isDecimalDigit = true)
    (hx : isDecimalDigit x = true) (hy : isDecimalDigit y = true) :
    isTwoDecimalString ((if sign then ['-'] else []) ++ (ip ++ ['.', x, y])) = true := by
  have hbody : ∀ body : List Char, body = ip ++ ['.', x, y] →
      (match body.reverse with
        | d0 :: d1 :: '.' :: ip =>
            isDecimalDigit d0 && isDecimalDigit d1 && !ip.isEmpty && ip.all isDecimalDigit
        | _ => false) = true := by
    intro body hb
    subst hb
    have hrev : (ip ++ ['.', x, y]).reverse = y :: x :: '.' :: ip.reverse := by simp
    rw [hrev]
    simp [hx, hy, hne, List.all_reverse]
    simpa using hip
  obtain ⟨c, cs, rfl⟩ : ∃ c cs, ip = c :: cs := List.exists_cons_of_ne_nil hne
  have hc : c ≠ '-' := by
    intro hc
    subst hc
    simp [isDecimalDigit] at hip
  cases sign
  · unfold isTwoDecimalString
    have : (match ([] : List Char) ++ (c :: cs ++ ['.', x, y]) with
        | '-' :: r => r
        | _ => [] ++ (c :: cs ++ ['.', x, y])) = c :: cs ++ ['.', x, y] := by
      simp
      split
      · next r heq => simp at heq; exact absurd heq.1 hc
      · rfl
    simp only [if_false, Bool.false_eq_true]
    rw [this]
    exact hbody _ rfl
  · unfold isTwoDecimalString
    simp only [if_true]
    exact hbody _ rfl

theorem finDen_pos (e : Int) : 0 < finDen e := by
  unfold finDen
  positivity

/-- The scaled integer is nearest: `n - 1/2 ≤ 10^f * num/den < n + 1/2`. -/
theorem nearestScaled_nearest (num den f : Nat) (hden : 0 < den) :
    2 * den * nearestScaled num den f ≤ 2 * 10 ^ f * num + den ∧
      2 * 10 ^ f * num + den < 2 * den * (nearestScaled num den f + 1) := by
  unfold nearestScaled
  have hpos : 0 < 2 * den := by omega
  constructor
  · exact Nat.mul_div_le _ _
  · exact Nat.lt_mul_div_succ _ hpos

theorem roundedTwoDecimals_isTwoDecimalString (neg : Bool) (m : Nat) (e : Int) :
    isTwoDecimalString (roundedTwoDecimals neg m e).toList = true := by
  unfold roundedTwoDecimals
  have h := isTwoDecimalString_fixed (decide (neg = true ∧ m ≠ 0))
    (natDigits (nearestScaled (finNum m e) (finDen e) 2 / 100))
    (digitChar (nearestScaled (finNum m e) (finDen e) 2 / 10 % 10))
    (digitChar (nearestScaled (finNum m e) (finDen e) 2 % 10))
    (natDigits_ne_nil _) (natDigits_all_digits _)
    (digitChar_isDecimalDigit _) (digitChar_isDecimalDigit _)
  simpa using h

/-- C1 (amended): for an amount that Number reads, in decimal notation, as a
number above zero, and a fetched rates object holding a number as the rate for
the target currency, when the binary64 product of the amount and the rate is
finite with magnitude below 10^21, convertCurrency displays that product
rounded to the nearest hundredth, ties away from zero, written with exactly
two fractional digits, whether or not the store accepts the write; when it
accepts, the store then holds the same string under the fixed key, and when
it does not, the store is as before. -/
theorem convertCurrency_displays_rounded (w : World)
    (members entries : List (String × JsonValue)) (writeOk : Bool)
    (r : JSNum) (neg : Bool) (m : Nat) (e : Int)
    (hpos : (stringToNumber w.screen.amount).isPositive = true)
    (hdec : isNonDecimalLiteral w.screen.amount = false)
    (hrates : getMember members "rates" = some (.obj entries))
    (hrate : getMember entries (toStr w.screen.toCurrency) = some (.num r))
    (hprod : JSNum.mul (stringToNumber w.screen.amount) r = .fin neg m e)
    (hsmall : finNum m e < 10 ^ 21 * finDen e) :
    (w.run (convertCurrency w.screen (.response (.obj members)) writeOk)).screen.convertedAmount
        = roundedTwoDecimals neg m e ∧
      (writeOk = true →
        (w.run (convertCurrency w.screen (.response (.obj members)) writeOk)).store storageKey
          = some (roundedTwoDecimals neg m e)) ∧
      (writeOk = false →
        (w.run (convertCurrency w.screen (.response (.obj members)) writeOk)).store = w.store) ∧
      isTwoDecimalString (roundedTwoDecimals neg m e).toList = true ∧
      2 * finDen e * nearestScaled (finNum m e) (finDen e) 2 ≤
        2 * 10 ^ 2 * finNum m e + finDen e ∧
      2 * 10 ^ 2 * finNum m e + finDen e <
        2 * finDen e * (nearestScaled (finNum m e) (finDen e) 2 + 1) := by
  have hvalid := valid_of_positive _ hpos
  have hsame := parseFloat_eq_stringToNumber _ (not_blank_of_positive _ hpos) hdec
    (not_nan_of_positive _ hpos)
  have hread := rateOf_of_rates_object members entries w.screen.toCurrency hrates
  rw [hrate] at hread
  have hres : conversionResult w.screen.amount (some (.num r)) =
      roundedTwoDecimals neg m e := by
    simp only [conversionResult, toNumber, hsame, hprod, roundedTwoDecimals]
    rw [toFixed_two neg m e hsmall]
  rw [convertCurrency_accepted w _ writeOk _ hvalid hread, hres]
  refine ⟨?_, ?_, ?_, roundedTwoDecimals_isTwoDecimalString neg m e,
    (nearestScaled_nearest _ _ 2 (finDen_pos e)).1, (nearestScaled_nearest _ _ 2 (finDen_pos e)).2⟩
  · cases writeOk <;> simp [saveLastConversionAmount, World.run, World.apply]
  · intro hw
    subst hw
    simp [saveLastConversionAmount, World.run, World.apply]
  · intro hw
    subst hw
    simp [saveLastConversionAmount, World.run, World.apply]

/-- C1 at amount 10, USD to EUR at rate 0.9: the product is the double 9,
the result shown and stored is 9.00. -/
theorem convertCurrency_displays_rounded_witness :
    roundedTwoDecimals false 5066549580791808 (-49) = "9.00" ∧
      ((exampleWorld "10").run (convertCurrency (exampleWorld "10").screen
          (.response (.obj (ratesBody "USD" [("EUR", .num (ofDecimal false 9 (-1)))])))
            true)).screen.convertedAmount =
        roundedTwoDecimals false 5066549580791808 (-49) ∧
      ((exampleWorld "10").run (convertCurrency (exampleWorld "10").screen
          (.response (.obj (ratesBody "USD" [("EUR", .num (ofDecimal false 9 (-1)))])))
            true)).store storageKey =
        some (roundedTwoDecimals false 5066549580791808 (-49)) :=
  ⟨by decide!,
    (convertCurrency_displays_rounded (exampleWorld "10")
      (ratesBody "USD" [("EUR", .num (ofDecimal false 9 (-1)))])
      [("EUR", .num (ofDecimal false 9 (-1)))] true
      (ofDecimal false 9 (-1)) false 5066549580791808 (-49)
      (by decide!) (by decide!) rfl rfl (by decide!) (by decide!)).1,
    (convertCurrency_displays_rounded (exampleWorld "10")
      (ratesBody "USD" [("EUR", .num (ofDecimal false 9 (-1)))])
      [("EUR", .num (ofDecimal false 9 (-1)))] true
      (ofDecimal false 9 (-1)) false 5066549580791808 (-49)
      (by decide!) (by decide!) rfl rfl (by decide!) (by decide!)).2.1 rfl⟩

/-- C1 as stated fails at the amount 1000000000000000000000 (ten to the 21st,
typed in digits) with rate 1: the amount is a valid number above zero, the
fetch succeeds with a rate for the target, and the displayed result is 1e+21,
which has no two fractional digits. -/
theorem convertCurrency_large_amount_not_two_decimals :
    invalidAmount "1000000000000000000000" = false ∧
      (stringToNumber "1000000000000000000000").isPositive = true ∧
      (parseFloat "1000000000000000000000").isPositive = true ∧
      (parseFloat "1000000000000000000000").isFinite = true ∧
      getMember [("EUR", JsonValue.num (ofDecimal false 1 0))] "EUR" =
        some (.num (ofDecimal false 1 0)) ∧
      ((exampleWorld "1000000000000000000000").run
          (convertCurrency (exampleWorld "1000000000000000000000").screen
            (.response (.obj (ratesBody "USD" [("EUR", .num (ofDecimal false 1 0))])))
              true)).screen.convertedAmount = "1e+21" ∧
      isTwoDecimalString "1e+21".toList = false := by
  refine ⟨by decide!, by decide!, by decide!, by decide!, rfl, by decide!, by decide!⟩

/-- The rounding is of the binary64 product, not of the decimal the user
typed: 1.015 at rate 1 is shown as 1.01, because the double nearest to 1.015
lies just below it. -/
theorem convertCurrency_rounds_the_double :
    ((exampleWorld "1.015").run (convertCurrency (exampleWorld "1.015").screen
        (.response (.obj (ratesBody "USD" [("EUR", .num (ofDecimal false 1 0))])))
          true)).screen.convertedAmount = "1.01" := by
  decide!

/-- C10 at amount 10 with a rates object that lacks EUR. -/
theorem convertCurrency_missing_rate_witness :
    ((exampleWorld "10").run (convertCurrency (exampleWorld "10").screen
        (.response (.obj (ratesBody "USD" [("JPY", .num (ofDecimal false 150 0))])))
          true)).screen.convertedAmount = "NaN" ∧
      ((exampleWorld "10").run (convertCurrency (exampleWorld "10").screen
        (.response (.obj (ratesBody "USD" [("JPY", .num (ofDecimal false 150 0))])))
          true)).store storageKey = some "NaN" :=
  ⟨(convertCurrency_missing_rate (exampleWorld "10")
      (ratesBody "USD" [("JPY", .num (ofDecimal false 150 0))])
      [("JPY", .num (ofDecimal false 150 0))]
      (by decide!) rfl rfl).2.2.2.1,
    (convertCurrency_missing_rate (exampleWorld "10")
      (ratesBody "USD" [("JPY", .num (ofDecimal false 150 0))])
      [("JPY", .num (ofDecimal false 150 0))]
      (by decide!) rfl rfl).2.2.2.2⟩

/-- C4 fails on the validation path: with amount abc, convertCurrency sets
the busy flag and returns before resetting it, so the flag is still set when
the call has settled, whatever the environment would have answered. -/
theorem convertCurrency_invalid_amount_stays_loading (resp : FetchResult) (writeOk : Bool) :
    (exampleWorld "abc").screen.loading = false ∧
      ((exampleWorld "abc").run
        (convertCurrency (exampleWorld "abc").screen resp writeOk)).screen.loading = true := by
  have hv : invalidAmount (exampleWorld "abc").screen.amount = true := by decide!
  simp [convertCurrency, hv, World.run, World.apply]
  rfl

/-- The busy flag on the other paths: both handlers begin by setting it, the
currency-list load always ends with it cleared, and a conversion whose amount
passes validation ends with it cleared whether or not the fetch succeeds. -/
theorem loading_set_then_cleared (w : World) (resp : FetchResult) (writeOk : Bool) :
    (fetchCurrencies resp).head? = some (.setLoading true) ∧
      (convertCurrency w.screen resp writeOk).head? = some (.setLoading true) ∧
      (w.run (fetchCurrencies resp)).screen.loading = false ∧
      (invalidAmount w.screen.amount = false →
        (w.run (convertCurrency w.screen resp writeOk)).screen.loading = false) := by
  refine ⟨by simp [fetchCurrencies], by simp [convertCurrency], ?_, ?_⟩
  · cases currencyListOf resp <;> simp [fetchCurrencies, World.run, World.apply, *]
  · intro hv
    cases hr : rateOf resp w.screen.toCurrency <;> cases writeOk <;>
      simp [convertCurrency, hv, hr, saveLastConversionAmount, World.run, World.apply]

/-- C5 as stated fails at amount Infinity: the amount passes validation and
the rate request is issued, yet parseFloat of it is not a finite number. -/
theorem validation_accepts_infinity :
    (convertCurrency (exampleWorld "Infinity").screen .networkError true).any
        Effect.isHttpGet = true ∧
      (parseFloat "Infinity").isFinite = false := by
  decide!

/-- A hexadecimal amount passes validation as sixteen although parseFloat
reads only its leading zero: the conversion displays 0.00. -/
theorem validation_accepts_hexadecimal :
    invalidAmount "0x10" = false ∧ isNonDecimalLiteral "0x10" = true ∧
      (parseFloat "0x10").isZero = true ∧
      ((exampleWorld "0x10").run (convertCurrency (exampleWorld "0x10").screen
        (.response (.obj (ratesBody "USD" [("EUR", .num (ofDecimal false 9 (-1)))])))
          true)).screen.convertedAmount = "0.00" := by
  decide!

/-- C5 (amended): convertCurrency passes validation and issues the rate
request exactly for the amounts that are present and that Number reads as a
number (not NaN); every other amount gets the Invalid Amount alert and
nothing else; and for an accepted amount in decimal notation (not blank, not
a 0x, 0o or 0b literal) the number then multiplied by the rate,
parseFloat(amount), is that same number: not NaN, though it may be infinite. -/
theorem validation_accepts_iff (s : ScreenState) (resp : FetchResult) (writeOk : Bool) :
    ((convertCurrency s resp writeOk).any Effect.isHttpGet = true ↔
        (s.amount ≠ "" ∧ (stringToNumber s.amount).isNaN = false)) ∧
      (convertCurrency s resp writeOk =
          [.setLoading true, .alert "Invalid Amount" "Please enter a valid numeric amount."] ↔
        ¬ (s.amount ≠ "" ∧ (stringToNumber s.amount).isNaN = false)) ∧
      ((convertCurrency s resp writeOk).any Effect.isHttpGet = true →
        isBlank s.amount = false → isNonDecimalLiteral s.amount = false →
          parseFloat s.amount = stringToNumber s.amount ∧
            (parseFloat s.amount).isNaN = false) := by
  have hiff : invalidAmount s.amount = false ↔
      (s.amount ≠ "" ∧ (stringToNumber s.amount).isNaN = false) := by
    simp [invalidAmount, isNaN]
  have hlink : (s.amount ≠ "" ∧ (stringToNumber s.amount).isNaN = false) →
      isBlank s.amount = false → isNonDecimalLiteral s.amount = false →
        parseFloat s.amount = stringToNumber s.amount ∧
          (parseFloat s.amount).isNaN = false := by
    intro hacc hb hd
    have heq := parseFloat_eq_stringToNumber s.amount hb hd hacc.2
    exact ⟨heq, by rw [heq]; exact hacc.2⟩
  cases hv : invalidAmount s.amount
  · have h := hiff.1 hv
    refine ⟨?_, ?_, fun _ => hlink h⟩
    · cases hr : rateOf resp s.toCurrency <;>
        simp [convertCurrency, hv, hr, Effect.isHttpGet, h]
    · cases hr : rateOf resp s.toCurrency <;> simp [convertCurrency, hv, hr, h]
  · have h : ¬ (s.amount ≠ "" ∧ (stringToNumber s.amount).isNaN = false) := by
      intro hc
      rw [hiff.2 hc] at hv
      exact Bool.noConfusion hv
    refine ⟨?_, ?_, ?_⟩
    · simp only [convertCurrency, hv, if_true]
      simp [Effect.isHttpGet]
      simpa using h
    · simp only [convertCurrency, hv, if_true]
      simpa using h
    · intro hget
      simp [convertCurrency, hv, Effect.isHttpGet] at hget

/-- C5 at amount 10: accepted, in decimal notation, and parseFloat reads the
number that Number reads. -/
theorem validation_accepts_iff_witness :
    parseFloat "10" = stringToNumber "10" ∧ (parseFloat "10").isNaN = false :=
  (validation_accepts_iff (exampleWorld "10").screen .networkError true).2.2
    (by decide!) (by decide!) (by decide!)

theorem toStringLarge_ne_nil (m : Nat) (e : Int) : toStringLarge m e ≠ [] := by
  unfold toStringLarge
  simp only
  split
  · next h => exact absurd h (natDigits_ne_nil _)
  · simp
  · simp

theorem toFixed_two_ne_nil (x : JSNum) : x.toFixed 2 ≠ [] := by
  cases x with
  | nan => simp [JSNum.toFixed]
  | inf neg => cases neg <;> simp [JSNum.toFixed]
  | fin neg m e =>
      by_cases h : 10 ^ 21 * finDen e ≤ finNum m e
      · simp only [JSNum.toFixed, h, if_true]
        simp [toStringLarge_ne_nil]
      · rw [toFixed_two neg m e (by omega)]
        simp

theorem conversionResult_ne_empty (amount : String) (rate : Option JsonValue) :
    conversionResult amount rate ≠ "" := by
  unfold conversionResult
  intro h
  have h2 := congrArg String.toList h
  exact toFixed_two_ne_nil _ (by simpa using h2)

/-- C6: after a conversion that passed validation, read a rates value from
the response and wrote to the store, the store holds the displayed result r,
and on a fresh screen over that store retrieveLastConversionAmount displays
exactly r by a single state update, issuing no request. -/
theorem restore_after_conversion (w : World) (resp : FetchResult)
    (hvalid : invalidAmount w.screen.amount = false) (hread : resp.unreadable = false) :
    (w.run (convertCurrency w.screen resp true)).store storageKey =
        some (w.run (convertCurrency w.screen resp true)).screen.convertedAmount ∧
      (freshWorld (w.run (convertCurrency w.screen resp true)).store).screen.convertedAmount
        = "" ∧
      retrieveLastConversionAmount
          ((freshWorld (w.run (convertCurrency w.screen resp true)).store).getItem
            storageKey true) =
        [.setConvertedAmount
          (w.run (convertCurrency w.screen resp true)).screen.convertedAmount] ∧
      ((freshWorld (w.run (convertCurrency w.screen resp true)).store).run
          (retrieveLastConversionAmount
            ((freshWorld (w.run (convertCurrency w.screen resp true)).store).getItem
              storageKey true))).screen.convertedAmount =
        (w.run (convertCurrency w.screen resp true)).screen.convertedAmount ∧
      ((freshWorld (w.run (convertCurrency w.screen resp true)).store).run
          (retrieveLastConversionAmount
            ((freshWorld (w.run (convertCurrency w.screen resp true)).store).getItem
              storageKey true))).requests = [] := by
  cases hr : rateOf resp w.screen.toCurrency with
  | none =>
      rw [(rateOf_eq_none_iff resp _).1 hr] at hread
      exact Bool.noConfusion hread
  | some rate =>
      have hne := conversionResult_ne_empty w.screen.amount rate
      rw [convertCurrency_accepted w resp true rate hvalid hr]
      simp [saveLastConversionAmount, World.run, World.apply, freshWorld,
        World.getItem, retrieveLastConversionAmount, hne, initialState]

/-- C6 at the conversion of 10 USD at rate 0.9: the restored result is 9.00. -/
theorem restore_after_conversion_witness :
    ((freshWorld ((exampleWorld "10").run (convertCurrency (exampleWorld "10").screen
          (.response (.obj (ratesBody "USD" [("EUR", .num (ofDecimal false 9 (-1)))])))
            true)).store).run
        (retrieveLastConversionAmount
          ((freshWorld ((exampleWorld "10").run (convertCurrency (exampleWorld "10").screen
            (.response (.obj (ratesBody "USD" [("EUR", .num (ofDecimal false 9 (-1)))])))
              true)).store).getItem
              storageKey true))).screen.convertedAmount =
      ((exampleWorld "10").run (convertCurrency (exampleWorld "10").screen
          (.response (.obj (ratesBody "USD" [("EUR", .num (ofDecimal false 9 (-1)))])))
            true)).screen.convertedAmount ∧
    ((exampleWorld "10").run (convertCurrency (exampleWorld "10").screen
          (.response (.obj (ratesBody "USD" [("EUR", .num (ofDecimal false 9 (-1)))])))
            true)).screen.convertedAmount = "9.00" :=
  ⟨(restore_after_conversion (exampleWorld "10")
      (.response (.obj (ratesBody "USD" [("EUR", .num (ofDecimal false 9 (-1)))])))
      (by decide!) (by decide!)).2.2.2.1, by decide!⟩

/-! ## The selection invariant over event sequences -/

theorem run_keeps_selection (effects : List Effect) :
    ∀ w : World, effects.all (fun e => !e.touchesSelection) = true →
      (w.run effects).screen.currencies = w.screen.currencies ∧
        (w.run effects).screen.fromCurrency = w.screen.fromCurrency ∧
        (w.run effects).screen.toCurrency = w.screen.toCurrency := by
  induction effects with
  | nil => intro w _; exact ⟨rfl, rfl, rfl⟩
  | cons eff rest ih =>
      intro w h
      simp only [List.all_cons, Bool.and_eq_true] at h
      have hrest := ih (w.apply eff) h.2
      have hrun : w.run (eff :: rest) = (w.apply eff).run rest := rfl
      rw [hrun]
      cases eff <;> simp [Effect.touchesSelection] at h <;>
        simpa [World.apply] using hrest

theorem convertCurrency_keeps_selection (s : ScreenState) (resp : FetchResult)
    (writeOk : Bool) :
    (convertCurrency s resp writeOk).all (fun e => !e.touchesSelection) = true := by
  cases hv : invalidAmount s.amount <;> cases hr : rateOf resp s.toCurrency <;>
    cases writeOk <;>
    simp [convertCurrency, hv, hr, saveLastConversionAmount, Effect.touchesSelection]

theorem retrieve_keeps_selection (r : ReadResult) :
    (retrieveLastConversionAmount r).all (fun e => !e.touchesSelection) = true := by
  cases r with
  | failed => simp [retrieveLastConversionAmount, Effect.touchesSelection]
  | value v =>
      cases v with
      | none => simp [retrieveLastConversionAmount]
      | some x =>
          by_cases hx : x = "" <;>
            simp [retrieveLastConversionAmount, hx, Effect.touchesSelection]

theorem SelectionListed_of_same (w w2 : World)
    (h : w2.screen.currencies = w.screen.currencies ∧
      w2.screen.fromCurrency = w.screen.fromCurrency ∧
      w2.screen.toCurrency = w.screen.toCurrency)
    (hw : SelectionListed w) : SelectionListed w2 := by
  unfold SelectionListed isListed at *
  rw [h.1, h.2.1, h.2.2]
  exact hw

theorem fetchCurrencies_listed (w : World) (resp : FetchResult) (codes : List String)
    (hcodes : currencyListOf resp = some codes)
    (hgood : listsUSDAndAnother codes = true) :
    SelectionListed (w.run (fetchCurrencies resp)) := by
  intro _
  simp only [listsUSDAndAnother, Bool.and_eq_true, decide_eq_true_eq] at hgood
  obtain ⟨husd, hany⟩ := hgood
  cases hfind : codes.find? (fun currency => currency != "USD") with
  | none =>
      rw [List.find?_eq_none] at hfind
      rw [List.any_eq_true] at hany
      obtain ⟨c, hc, hne⟩ := hany
      exact absurd hne (hfind c hc)
  | some c =>
      have hmem : c ∈ codes := List.mem_of_find?_eq_some hfind
      simp only [fetchCurrencies, hcodes, World.run, World.apply, List.foldl, List.cons_append,
        List.nil_append, hfind, isListed, decide_eq_true_eq]
      exact ⟨husd, hmem⟩

theorem fetchCurrencies_failed_keeps (w : World) (resp : FetchResult)
    (hcodes : currencyListOf resp = none) :
    (w.run (fetchCurrencies resp)).screen.currencies = w.screen.currencies ∧
      (w.run (fetchCurrencies resp)).screen.fromCurrency = w.screen.fromCurrency ∧
      (w.run (fetchCurrencies resp)).screen.toCurrency = w.screen.toCurrency := by
  simp [fetchCurrencies, hcodes, World.run, World.apply]

theorem step_keeps_listed (w : World) (ev : Event) (hgood : ev.goodLoad = true)
    (hw : SelectionListed w) : SelectionListed (w.step ev) := by
  cases ev with
  | mount resp readOk =>
      have hsecond := run_keeps_selection
        (retrieveLastConversionAmount ((w.run (fetchCurrencies resp)).getItem storageKey readOk))
        (w.run (fetchCurrencies resp)) (retrieve_keeps_selection _)
      refine SelectionListed_of_same _ _ hsecond ?_
      cases hcodes : currencyListOf resp with
      | some codes =>
          have hg : listsUSDAndAnother codes = true := by
            simpa [Event.goodLoad, hcodes] using hgood
          exact fetchCurrencies_listed w resp codes hcodes hg
      | none =>
          exact SelectionListed_of_same w _ (fetchCurrencies_failed_keeps w resp hcodes) hw
  | changeAmount text =>
      exact SelectionListed_of_same w _ (by simp [World.step, World.run, World.apply]) hw
  | pickFrom c =>
      by_cases hc : c ∈ w.screen.currencies
      · intro _
        have hne : w.screen.currencies ≠ [] := List.ne_nil_of_mem hc
        have h2 := (hw hne).2
        simp only [World.step, hc, if_true, World.run, World.apply, List.foldl, isListed,
          decide_eq_true_eq]
        exact ⟨trivial, by simpa [isListed] using h2⟩
      · simpa [World.step, hc] using hw
  | pickTo c =>
      by_cases hc : c ∈ w.screen.currencies
      · intro _
        have hne : w.screen.currencies ≠ [] := List.ne_nil_of_mem hc
        have h1 := (hw hne).1
        simp only [World.step, hc, if_true, World.run, World.apply, List.foldl, isListed,
          decide_eq_true_eq]
        exact ⟨by simpa [isListed] using h1, trivial⟩
      · simpa [World.step, hc] using hw
  | pressConvert resp writeOk =>
      cases hl : w.screen.loading
      · have hk := run_keeps_selection (convertCurrency w.screen resp writeOk) w
          (convertCurrency_keeps_selection _ _ _)
        simp only [World.step, hl]
        exact SelectionListed_of_same w _ hk hw
      · simpa [World.step, hl] using hw
  | pressSwap =>
      intro hne
      have hne2 : w.screen.currencies ≠ [] := by
        simpa [World.step, swapCurrencies, World.run, World.apply] using hne
      have h := hw hne2
      simp only [World.step, swapCurrencies, World.run, World.apply, List.foldl]
      exact ⟨by simpa [isListed] using h.2, by simpa [isListed] using h.1⟩
  | pressClear =>
      cases hl : w.screen.loading
      · exact SelectionListed_of_same w _
          (by simp [World.step, hl, clearFields, World.run, World.apply]) hw
      · simpa [World.step, hl] using hw

theorem runEvents_keeps_listed (events : List Event) :
    ∀ w : World, events.all Event.goodLoad = true → SelectionListed w →
      SelectionListed (w.runEvents events) := by
  induction events with
  | nil => intro w _ hw; exact hw
  | cons ev rest ih =>
      intro w h hw
      simp only [List.all_cons, Bool.and_eq_true] at h
      exact ih (w.step ev) h.2 (step_keeps_listed w ev h.1 hw)

/-- C9 as stated fails after a failed currency-list load: the list is empty,
Convert is enabled, the conversion issues its rate request, and neither from
nor to is a member of the list. -/
theorem selection_unlisted_after_failed_load :
    ((freshWorld (fun _ => none)).runEvents
        [.mount .networkError true, .changeAmount "10"]).screen.loading = false ∧
      (convertCurrency ((freshWorld (fun _ => none)).runEvents
        [.mount .networkError true, .changeAmount "10"]).screen .networkError true).any
          Effect.isHttpGet = true ∧
      isListed ((freshWorld (fun _ => none)).runEvents
        [.mount .networkError true, .changeAmount "10"]).screen
          ((freshWorld (fun _ => none)).runEvents
            [.mount .networkError true, .changeAmount "10"]).screen.fromCurrency = false ∧
      isListed ((freshWorld (fun _ => none)).runEvents
        [.mount .networkError true, .changeAmount "10"]).screen
          ((freshWorld (fun _ => none)).runEvents
            [.mount .networkError true, .changeAmount "10"]).screen.toCurrency = false := by
  decide!

/-- C9 (amended): over any store and any sequence of mounts, edits, picker
selections, swaps, clears and conversions in which every successful
currency-list load brings a list with USD and another code, once a list is
loaded both from and to are members of the most recently loaded list. -/
theorem selection_listed_when_loaded (store : String → Option String) (events : List Event)
    (hgood : events.all Event.goodLoad = true)
    (hloaded : ((freshWorld store).runEvents events).screen.currencies ≠ []) :
    isListed ((freshWorld store).runEvents events).screen
        ((freshWorld store).runEvents events).screen.fromCurrency = true ∧
      isListed ((freshWorld store).runEvents events).screen
        ((freshWorld store).runEvents events).screen.toCurrency = true := by
  have hinit : SelectionListed (freshWorld store) := by
    intro h
    exact absurd rfl h
  exact runEvents_keeps_listed events (freshWorld store) hgood hinit hloaded

/-- C9 (amended) after a load of USD, EUR and JPY, a pick of JPY as target
and a swap: from is JPY, to is USD, both on the list. -/
theorem selection_listed_when_loaded_witness :
    isListed ((freshWorld (fun _ => none)).runEvents
        [.mount (.response (.obj (ratesBody "USD" [("USD", .num (ofDecimal false 1 0)),
            ("EUR", .num (ofDecimal false 9 (-1))), ("JPY", .num (ofDecimal false 150 0))])))
            true,
          .pickTo "JPY", .pressSwap]).screen
        ((freshWorld (fun _ => none)).runEvents
          [.mount (.response (.obj (ratesBody "USD" [("USD", .num (ofDecimal false 1 0)),
            ("EUR", .num (ofDecimal false 9 (-1))), ("JPY", .num (ofDecimal false 150 0))])))
            true,
            .pickTo "JPY", .pressSwap]).screen.fromCurrency = true ∧
      isListed ((freshWorld (fun _ => none)).runEvents
        [.mount (.response (.obj (ratesBody "USD" [("USD", .num (ofDecimal false 1 0)),
            ("EUR", .num (ofDecimal false 9 (-1))), ("JPY", .num (ofDecimal false 150 0))])))
            true,
          .pickTo "JPY", .pressSwap]).screen
        ((freshWorld (fun _ => none)).runEvents
          [.mount (.response (.obj (ratesBody "USD" [("USD", .num (ofDecimal false 1 0)),
            ("EUR", .num (ofDecimal false 9 (-1))), ("JPY", .num (ofDecimal false 150 0))])))
            true,
            .pickTo "JPY", .pressSwap]).screen.toCurrency = true :=
  selection_listed_when_loaded (fun _ => none)
    [.mount (.response (.obj (ratesBody "USD" [("USD", .num (ofDecimal false 1 0)),
            ("EUR", .num (ofDecimal false 9 (-1))), ("JPY", .num (ofDecimal false 150 0))])))
            true,
      .pickTo "JPY", .pressSwap]
    (by decide!) (by decide!)

end ConversionScreen
